import Mathlib

/-!
Verification of the virtual-memory core of `oscomp/kernel-design-impl`
(`os/src/mm/memory_set.rs`), against its natural-language specification.

The `MemorySet`/`MapArea` layer is translated directly from
`src/codes/os/src/mm/memory_set.rs`.  The `PageTable` primitives, the frame
allocator, the parsed ELF view and the configuration constants live in files
of the repository that are not available here (`page_table.rs`,
`frame_allocator.rs`, `config.rs`, the `xmas_elf` crate); those are modelled
from the specification, as marked on each definition.

Modelling conventions:
* machine words are `Nat` (no arithmetic here overflows a 64-bit word on the
  inputs the kernel feeds it; VPN/PPN are page indices);
* the page table is modelled at the granularity the spec gives for its public
  contract: a finite map from VPN to leaf entries (the three-level Sv39 walk
  and the interior/root frames it owns are below that interface and no claim
  depends on them);
* the global frame allocator is threaded explicitly: a monotone counter of
  never-yet-allocated PPNs plus the list of PPNs returned to it by `Drop` of
  a `FrameTracker`;
* physical memory is threaded explicitly as `Mem : PPN → List Nat` (page
  contents);
* Rust panics are handled two ways: `unwrap` on a missing translation is
  modelled with a default value, and theorems carry hypotheses putting the
  state on the panic-free path wherever a claim depends on it; mapping an
  already-valid leaf (fails-fatal per the spec's `PageTable::map` contract)
  raises a `fatal` flag carried by the page table, so a completed run of the
  real code corresponds to a final state with `fatal = false`, and an input
  on which the kernel panics is recognizable by `fatal = true`.
-/

set_option autoImplicit false

abbrev VPN := Nat
abbrev PPN := Nat

/-- Modelled from the spec: configuration constant `PAGE_SIZE` from
`config.rs`, which is not under `src/`. -/
def PAGE_SIZE : Nat := 4096

/-- Modelled from the spec: `TRAMPOLINE` is the top page of the virtual
address space (`usize::MAX - PAGE_SIZE + 1`); `config.rs` is not under
`src/`. -/
def TRAMPOLINE : Nat := 2 ^ 64 - PAGE_SIZE

/-- Modelled from the spec: `TRAP_CONTEXT` is one page below `TRAMPOLINE`;
`config.rs` is not under `src/`. -/
def TRAP_CONTEXT : Nat := TRAMPOLINE - PAGE_SIZE

/-- Modelled from the spec: user stack size constant from `config.rs`
(not under `src/`); any positive page multiple, fixed here. -/
def USER_STACK_SIZE : Nat := 8192

/-- Modelled from the spec: user heap size constant from `config.rs`
(not under `src/`); any positive page multiple, fixed here. -/
def USER_HEAP_SIZE : Nat := 16384

/-- `VirtAddr::floor`: address to page number, truncating. -/
def floorVpn (va : Nat) : VPN := va / PAGE_SIZE

/-- `VirtAddr::ceil`: address to page number, rounding up. -/
def ceilVpn (va : Nat) : VPN := (va + PAGE_SIZE - 1) / PAGE_SIZE

/-- Modelled from the spec: `PTEFlags` bit set from `page_table.rs` (not
under `src/`): Valid, Read, Write, Execute, User, Global, Accessed, Dirty
and the software-reserved COW bit. -/
structure PTEFlagsS where
  v : Bool := false
  r : Bool := false
  w : Bool := false
  x : Bool := false
  u : Bool := false
  g : Bool := false
  acc : Bool := false
  d : Bool := false
  cow : Bool := false
deriving DecidableEq

/-- Modelled from the spec: `PageTableEntry` from `page_table.rs` (not under
`src/`): a PPN together with its flags. -/
structure PageTableEntry where
  ppn : PPN
  flags : PTEFlagsS
deriving DecidableEq

/-- Modelled from the spec: `PageTable` from `page_table.rs` (not under
`src/`), at the granularity of its public contract: the finite map from VPN
to installed leaf entries.  Newest binding first; lookups take the first
binding of a key.  `fatal` records whether a fails-fatal condition of the
spec's contract has been hit (mapping an already-valid leaf): the kernel
panics there, so a state of the real code corresponds to a model state with
`fatal = false`, and a run whose model state has `fatal = true` is one the
kernel aborts at the first violation. -/
structure PageTable where
  entries : List (VPN × PageTableEntry)
  fatal : Bool
deriving DecidableEq

/-- First binding of `vpn` in an entry list. -/
def ptLookup : List (VPN × PageTableEntry) → VPN → Option PageTableEntry
  | [], _ => none
  | e :: rest, vpn => if e.1 = vpn then some e.2 else ptLookup rest vpn

/-- Rewrite the leaf entry bound to `vpn` in place (helper shared by the
modelled in-place mutators `set_flags`, `set_cow`, `reset_cow`,
`remap_cow`). -/
def PageTable.updEntry (pt : PageTable) (vpn : VPN) (f : PageTableEntry → PageTableEntry) : PageTable :=
  ⟨pt.entries.map (fun e => if e.1 = vpn then (e.1, f e.2) else e), pt.fatal⟩

/-- Modelled from the spec: `PageTable::new` (`page_table.rs`, not under
`src/`): an empty table with no mappings. -/
def PageTable.new : PageTable := ⟨[], false⟩

/-- Whether the table currently holds a valid leaf at `vpn` (the
fails-fatal precondition check of `PageTable::map`). -/
def ptValidAt (pt : PageTable) (vpn : VPN) : Bool :=
  match ptLookup pt.entries vpn with
  | some pte => pte.flags.v
  | none => false

/-- Modelled from the spec: `PageTable::map` (`page_table.rs`, not under
`src/`): requires the target leaf to be non-valid and installs the leaf
entry `{ppn, flags | Valid}` at `vpn`.  Mapping an already-valid leaf is
fails-fatal in the source: the model raises the `fatal` flag in that case
(the new binding is still recorded, but once `fatal` is set the state is
one the kernel never reaches past the panic). -/
def PageTable.map (pt : PageTable) (vpn : VPN) (ppn : PPN) (flags : PTEFlagsS) : PageTable :=
  ⟨(vpn, ⟨ppn, { flags with v := true }⟩) :: pt.entries, pt.fatal || ptValidAt pt vpn⟩

/-- Remove every binding of a key from an entry list. -/
def ptErase : List (VPN × PageTableEntry) → VPN → List (VPN × PageTableEntry)
  | [], _ => []
  | e :: rest, k => if e.1 = k then ptErase rest k else e :: ptErase rest k

/-- Modelled from the spec: `PageTable::unmap` (`page_table.rs`, not under
`src/`): clears the leaf entry at `vpn` (fails-fatal when invalid in the
source; the model removes every binding of the key). -/
def PageTable.unmap (pt : PageTable) (vpn : VPN) : PageTable :=
  ⟨ptErase pt.entries vpn, pt.fatal⟩

/-- Modelled from the spec: `PageTable::translate` (`page_table.rs`, not
under `src/`): the leaf entry when the walk yields a valid entry, `none`
otherwise. -/
def PageTable.translate (pt : PageTable) (vpn : VPN) : Option PageTableEntry :=
  match ptLookup pt.entries vpn with
  | some pte => if pte.flags.v then some pte else none
  | none => none

/-- Modelled from the spec: `PageTable::set_flags` (`page_table.rs`, not
under `src/`): overwrite the flags of a leaf entry in place. -/
def PageTable.set_flags (pt : PageTable) (vpn : VPN) (flags : PTEFlagsS) : PageTable :=
  pt.updEntry vpn (fun pte => ⟨pte.ppn, flags⟩)

/-- Modelled from the spec: `PageTable::set_cow` (`page_table.rs`, not under
`src/`): set the software COW bit of a leaf entry in place. -/
def PageTable.set_cow (pt : PageTable) (vpn : VPN) : PageTable :=
  pt.updEntry vpn (fun pte => ⟨pte.ppn, { pte.flags with cow := true }⟩)

/-- Modelled from the spec: `PageTable::reset_cow` (`page_table.rs`, not
under `src/`): clear the software COW bit of a leaf entry in place. -/
def PageTable.reset_cow (pt : PageTable) (vpn : VPN) : PageTable :=
  pt.updEntry vpn (fun pte => ⟨pte.ppn, { pte.flags with cow := false }⟩)

/-- A page of physical memory as its byte list; all of physical memory as a
map from PPN to page contents. -/
abbrev Mem := PPN → List Nat

/-- Whole-page copy `dst.get_bytes_array().copy_from_slice(src.get_bytes_array())`. -/
def copyPage (mem : Mem) (dst src : PPN) : Mem :=
  fun p => if p = dst then mem src else mem p

/-- Partial-page copy `dst[..src.len()].copy_from_slice(src)`: overwrite a
prefix of the page at `dst`, keeping the tail. -/
def writeBytesAt (mem : Mem) (dst : PPN) (bytes : List Nat) : Mem :=
  fun p => if p = dst then bytes ++ (mem dst).drop bytes.length else mem p

/-- A single user-level store of byte `b` at offset `i` of the frame `dst`
(the observable used to state write-isolation between address spaces). -/
def writeByte (mem : Mem) (dst : PPN) (i b : Nat) : Mem :=
  fun p => if p = dst then (mem dst).set i b else mem p

/-- Modelled from the spec: `PageTable::remap_cow` (`page_table.rs`, not
under `src/`).  Rewrites the leaf entry at `vpn` to
`{ppn := new_ppn, flags := flags minus COW plus W}` (spec, PageTable
contract).  The spec's `cow_alloc` contract also requires the former frame's
bytes to be copied into the new frame, and `remap_cow` is the only callee of
`cow_alloc` that can perform it, so the copy is placed here. -/
def PageTable.remap_cow (pt : PageTable) (mem : Mem) (vpn : VPN) (ppn former_ppn : PPN) :
    PageTable × Mem :=
  (pt.updEntry vpn (fun pte => ⟨ppn, { pte.flags with w := true, cow := false }⟩),
   copyPage mem ppn former_ppn)

/-- Modelled from the spec: the global frame allocator
(`frame_allocator.rs`, not under `src/`).  `next` is the first
never-yet-allocated PPN; `freed` records the PPNs handed back by `Drop` of a
`FrameTracker` (the model never re-issues them, which is sound for every
claim: claims speak about which frames get released, not about reuse). -/
structure FrameAllocS where
  next : PPN
  freed : List PPN
deriving DecidableEq

/-- Modelled from the spec: `frame_alloc()` yields a uniquely-owned fresh
frame (`frame_allocator.rs`, not under `src/`). -/
def frame_alloc (fa : FrameAllocS) : PPN × FrameAllocS :=
  (fa.next, ⟨fa.next + 1, fa.freed⟩)

/-- Modelled from the spec: `Drop for FrameTracker` returns the frame to the
allocator (`frame_allocator.rs`, not under `src/`). -/
def frame_free (fa : FrameAllocS) (p : PPN) : FrameAllocS :=
  ⟨fa.next, p :: fa.freed⟩

/-- `MapType` from `memory_set.rs`. -/
inductive MapType where
  | Identical
  | Framed
deriving DecidableEq

/-- `MapPermission` bitflags (R, W, X, U) from `memory_set.rs`. -/
structure MapPermission where
  r : Bool := false
  w : Bool := false
  x : Bool := false
  u : Bool := false
deriving DecidableEq

/-- `PTEFlags::from_bits(map_perm.bits)`: the permission bits reinterpreted
as PTE flag bits (same bit positions; V added later by `PageTable::map`). -/
def MapPermission.toPTEFlags (p : MapPermission) : PTEFlagsS :=
  { r := p.r, w := p.w, x := p.x, u := p.u }

/-- `MapArea` from `memory_set.rs`: `vpn_range` is the half-open
`[vpn_start, vpn_end)`; `data_frames` is the `BTreeMap<VirtPageNum,
FrameTracker>` (a `FrameTracker` is represented by the PPN it owns). -/
structure MapArea where
  vpn_start : VPN
  vpn_end : VPN
  data_frames : List (VPN × PPN)
  map_type : MapType
  map_perm : MapPermission
deriving DecidableEq

/-- The ascending list of VPNs of the half-open range `[s, e)` (iteration
order of `VPNRange`). -/
def vpnRange (s e : VPN) : List VPN := (List.range (e - s)).map (fun i => s + i)

/-- `area.vpn_range` as a list of VPNs. -/
def MapArea.range (a : MapArea) : List VPN := vpnRange a.vpn_start a.vpn_end

/-- `MapArea::new` from `memory_set.rs`. -/
def MapArea.new (start_va end_va : Nat) (mt : MapType) (mp : MapPermission) : MapArea :=
  ⟨floorVpn start_va, ceilVpn end_va, [], mt, mp⟩

/-- `MapArea::from_another` from `memory_set.rs`: same range, type and
permission, empty `data_frames`. -/
def MapArea.from_another (a : MapArea) : MapArea :=
  ⟨a.vpn_start, a.vpn_end, [], a.map_type, a.map_perm⟩

/-- `BTreeMap::insert` (`map_one` only ever inserts a key that is absent, so
recording the newest binding first is faithful). -/
def dfInsert (df : List (VPN × PPN)) (vpn : VPN) (p : PPN) : List (VPN × PPN) :=
  (vpn, p) :: df

/-- `BTreeMap::remove`: take out the first binding of `vpn`, returning the
removed frame (whose `FrameTracker` the caller then drops) and the rest. -/
def dfRemove : List (VPN × PPN) → VPN → Option PPN × List (VPN × PPN)
  | [], _ => (none, [])
  | e :: rest, vpn =>
    if e.1 = vpn then (some e.2, rest)
    else
      let s := dfRemove rest vpn
      (s.1, e :: s.2)

/-- `MapArea::map_one` from `memory_set.rs`: resolve a PPN (identity, or a
fresh frame recorded in `data_frames`), then install the leaf entry. -/
def MapArea.map_one (a : MapArea) (pt : PageTable) (fa : FrameAllocS) (vpn : VPN) :
    MapArea × PageTable × FrameAllocS :=
  match a.map_type with
  | MapType.Identical =>
    (a, pt.map vpn vpn a.map_perm.toPTEFlags, fa)
  | MapType.Framed =>
    let s := frame_alloc fa
    ({ a with data_frames := dfInsert a.data_frames vpn s.1 },
     pt.map vpn s.1 a.map_perm.toPTEFlags, s.2)

/-- The `for vpn in self.vpn_range` loop of `MapArea::map`. -/
def mapLoop (a : MapArea) (pt : PageTable) (fa : FrameAllocS) :
    List VPN → MapArea × PageTable × FrameAllocS
  | [] => (a, pt, fa)
  | vpn :: rest =>
    let s := a.map_one pt fa vpn
    mapLoop s.1 s.2.1 s.2.2 rest

/-- `MapArea::map` from `memory_set.rs`. -/
def MapArea.map (a : MapArea) (pt : PageTable) (fa : FrameAllocS) :
    MapArea × PageTable × FrameAllocS :=
  mapLoop a pt fa a.range

/-- `MapArea::unmap_one` from `memory_set.rs`: for a framed area remove (and
thereby drop) the owning `FrameTracker`, then clear the leaf entry. -/
def MapArea.unmap_one (a : MapArea) (pt : PageTable) (fa : FrameAllocS) (vpn : VPN) :
    MapArea × PageTable × FrameAllocS :=
  match a.map_type with
  | MapType.Framed =>
    let s := dfRemove a.data_frames vpn
    let fa2 := match s.1 with
      | some p => frame_free fa p
      | none => fa
    ({ a with data_frames := s.2 }, pt.unmap vpn, fa2)
  | MapType.Identical =>
    (a, pt.unmap vpn, fa)

/-- The `for vpn in self.vpn_range` loop of `MapArea::unmap`. -/
def unmapLoop (a : MapArea) (pt : PageTable) (fa : FrameAllocS) :
    List VPN → MapArea × PageTable × FrameAllocS
  | [] => (a, pt, fa)
  | vpn :: rest =>
    let s := a.unmap_one pt fa vpn
    unmapLoop s.1 s.2.1 s.2.2 rest

/-- `MapArea::unmap` from `memory_set.rs`. -/
def MapArea.unmap (a : MapArea) (pt : PageTable) (fa : FrameAllocS) :
    MapArea × PageTable × FrameAllocS :=
  unmapLoop a pt fa a.range

/-- A zero page-table entry, the value an `unwrap` panic path is modelled
with. -/
def zeroPte : PageTableEntry := ⟨0, {}⟩

/-- The `loop` body of `MapArea::copy_data`, structurally recursive on fuel
(one unit per iteration; `data.length + 1` units always suffice since
`start` grows by `PAGE_SIZE` each round). -/
def copyDataLoop (pt : PageTable) (data : List Nat) :
    Nat → Mem → Nat → VPN → Mem
  | 0, mem, _, _ => mem
  | fuel + 1, mem, start, current_vpn =>
    let len := data.length
    let src := (data.drop start).take (min len (start + PAGE_SIZE) - start)
    let dst_ppn := ((pt.translate current_vpn).getD zeroPte).ppn
    let mem2 := writeBytesAt mem dst_ppn src
    let start2 := start + PAGE_SIZE
    if start2 ≥ len then mem2
    else copyDataLoop pt data fuel mem2 start2 (current_vpn + 1)

/-- `MapArea::copy_data` from `memory_set.rs`: write `data` page by page
from the area's first VPN, stopping once `data` is exhausted. -/
def MapArea.copy_data (a : MapArea) (pt : PageTable) (mem : Mem) (data : List Nat) : Mem :=
  copyDataLoop pt data (data.length + 1) mem 0 a.vpn_start

/-- `MemorySet` from `memory_set.rs`: one page table plus the ordered area
list.  Physical memory and the allocator are threaded separately. -/
structure MemorySet where
  page_table : PageTable
  areas : List MapArea
deriving DecidableEq

/-- `MemorySet::new_bare` from `memory_set.rs`. -/
def MemorySet.new_bare : MemorySet := ⟨PageTable.new, []⟩

/-- `MemorySet::translate` from `memory_set.rs`. -/
def MemorySet.translate (ms : MemorySet) (vpn : VPN) : Option PageTableEntry :=
  ms.page_table.translate vpn

/-- `MemorySet::set_cow` from `memory_set.rs`. -/
def MemorySet.set_cow (ms : MemorySet) (vpn : VPN) : MemorySet :=
  ⟨ms.page_table.set_cow vpn, ms.areas⟩

/-- `MemorySet::remap_cow` from `memory_set.rs` (forwards to the page
table). -/
def MemorySet.remap_cow (ms : MemorySet) (mem : Mem) (vpn : VPN) (ppn former_ppn : PPN) :
    MemorySet × Mem :=
  let s := ms.page_table.remap_cow mem vpn ppn former_ppn
  (⟨s.1, ms.areas⟩, s.2)

/-- Modelled from the spec: the `strampoline` linker symbol (kernel text
frame of the trampoline); its concrete value is irrelevant to every claim. -/
def strampolinePpn : PPN := 2 ^ 40

/-- `MemorySet::map_trampoline` from `memory_set.rs`: one leaf mapping
`TRAMPOLINE -> strampoline`, flags R|X, outside the area list. -/
def MemorySet.map_trampoline (ms : MemorySet) : MemorySet :=
  ⟨ms.page_table.map (floorVpn TRAMPOLINE) strampolinePpn { r := true, x := true }, ms.areas⟩

/-- `MemorySet::push` from `memory_set.rs`: map the area, optionally copy
initial data, append the area. -/
def MemorySet.push (ms : MemorySet) (ma : MapArea) (data : Option (List Nat))
    (fa : FrameAllocS) (mem : Mem) : MemorySet × FrameAllocS × Mem :=
  let s := ma.map ms.page_table fa
  let mem2 := match data with
    | some d => s.1.copy_data s.2.1 mem d
    | none => mem
  (⟨s.2.1, ms.areas ++ [s.1]⟩, s.2.2, mem2)

/-- `MemorySet::push_mmap` from `memory_set.rs`: map the area and append it;
the `data` argument is ignored. -/
def MemorySet.push_mmap (ms : MemorySet) (ma : MapArea) (_data : Option (List Nat))
    (fa : FrameAllocS) : MemorySet × FrameAllocS :=
  let s := ma.map ms.page_table fa
  (⟨s.2.1, ms.areas ++ [s.1]⟩, s.2.2)

/-- `MemorySet::push_mapped` from `memory_set.rs`: append without mapping. -/
def MemorySet.push_mapped (ms : MemorySet) (ma : MapArea) : MemorySet :=
  ⟨ms.page_table, ms.areas ++ [ma]⟩

/-- `MemorySet::insert_framed_area` from `memory_set.rs`. -/
def MemorySet.insert_framed_area (ms : MemorySet) (start_va end_va : Nat)
    (permission : MapPermission) (fa : FrameAllocS) (mem : Mem) :
    MemorySet × FrameAllocS × Mem :=
  ms.push (MapArea.new start_va end_va MapType.Framed permission) none fa mem

/-- `MemorySet::insert_mmap_area` from `memory_set.rs`. -/
def MemorySet.insert_mmap_area (ms : MemorySet) (start_va end_va : Nat)
    (permission : MapPermission) (fa : FrameAllocS) : MemorySet × FrameAllocS :=
  ms.push_mmap (MapArea.new start_va end_va MapType.Framed permission) none fa

/-- The find-first-then-remove traversal of
`MemorySet::remove_area_with_start_vpn`. -/
def removeAreasLoop (start_vpn : VPN) (pt : PageTable) (fa : FrameAllocS) :
    List MapArea → PageTable × FrameAllocS × List MapArea
  | [] => (pt, fa, [])
  | a :: rest =>
    if a.vpn_start = start_vpn then
      let s := a.unmap pt fa
      (s.2.1, s.2.2, rest)
    else
      let s := removeAreasLoop start_vpn pt fa rest
      (s.1, s.2.1, a :: s.2.2)

/-- `MemorySet::remove_area_with_start_vpn` from `memory_set.rs`: unmap and
drop the first area whose range starts at `start_vpn`; no-op when there is
none. -/
def MemorySet.remove_area_with_start_vpn (ms : MemorySet) (start_vpn : VPN)
    (fa : FrameAllocS) : MemorySet × FrameAllocS :=
  let s := removeAreasLoop start_vpn ms.page_table fa ms.areas
  (⟨s.1, s.2.2⟩, s.2.1)

/-- `MemorySet::cow_alloc` from `memory_set.rs`: allocate a fresh frame,
`remap_cow` the faulting VPN onto it, return 0.  The `frame` binding goes
out of scope at the end of the function body, so its `FrameTracker` is
dropped and the frame returns to the allocator. -/
def MemorySet.cow_alloc (ms : MemorySet) (vpn : VPN) (former_ppn : PPN)
    (fa : FrameAllocS) (mem : Mem) : Nat × MemorySet × FrameAllocS × Mem :=
  let s := frame_alloc fa
  let t := ms.remap_cow mem vpn s.1 former_ppn
  let fa3 := frame_free s.2 s.1
  (0, t.1, fa3, t.2)

/-- `MemorySet::recycle_data_pages` from `memory_set.rs`: `areas.clear()`;
dropping each `MapArea` drops every `FrameTracker` in its `data_frames`. -/
def MemorySet.recycle_data_pages (ms : MemorySet) (fa : FrameAllocS) :
    MemorySet × FrameAllocS :=
  (⟨ms.page_table, []⟩,
   ⟨fa.next, (ms.areas.map (fun a => a.data_frames.map (fun e => e.2))).flatten ++ fa.freed⟩)

/-- The `for vpn in area.vpn_range` byte-copy loop shared by
`from_existed_user` and the deep-copy half of `from_copy_on_write`:
`dst_ppn.get_bytes_array().copy_from_slice(src_ppn.get_bytes_array())` with
`src` translated in the parent and `dst` in the child. -/
def copyAreaLoop (parent child : MemorySet) : Mem → List VPN → Mem
  | mem, [] => mem
  | mem, vpn :: rest =>
    let src_ppn := ((parent.translate vpn).getD zeroPte).ppn
    let dst_ppn := ((child.translate vpn).getD zeroPte).ppn
    copyAreaLoop parent child (copyPage mem dst_ppn src_ppn) rest

/-- The `for area in user_space.areas` loop of `from_existed_user`. -/
def feuLoop (parent : MemorySet) :
    MemorySet → FrameAllocS → Mem → List MapArea → MemorySet × FrameAllocS × Mem
  | child, fa, mem, [] => (child, fa, mem)
  | child, fa, mem, area :: rest =>
    let s := child.push (MapArea.from_another area) none fa mem
    let mem3 := copyAreaLoop parent s.1 s.2.2 area.range
    feuLoop parent s.1 s.2.1 mem3 rest

/-- `MemorySet::from_existed_user` from `memory_set.rs`: trampoline plus a
deep byte-for-byte clone of every area. -/
def MemorySet.from_existed_user (user_space : MemorySet) (fa : FrameAllocS) (mem : Mem) :
    MemorySet × FrameAllocS × Mem :=
  feuLoop user_space MemorySet.new_bare.map_trampoline fa mem user_space.areas

/-- The first `for area in user_space.areas` loop of `from_copy_on_write`:
areas whose start VPN is not below `heap_floor` are deep-copied into the
child; the rest are skipped by `continue`. -/
def cowDeepLoop (user_space : MemorySet) (heap_floor : VPN) :
    MemorySet → FrameAllocS → Mem → List MapArea → MemorySet × FrameAllocS × Mem
  | child, fa, mem, [] => (child, fa, mem)
  | child, fa, mem, area :: rest =>
    if area.vpn_start < heap_floor then
      cowDeepLoop user_space heap_floor child fa mem rest
    else
      let s := child.push (MapArea.from_another area) none fa mem
      let mem3 := copyAreaLoop user_space s.1 s.2.2 area.range
      cowDeepLoop user_space heap_floor s.1 s.2.1 mem3 rest

/-- The per-VPN body of the CoW half of `from_copy_on_write`: read the
parent leaf, clear W, rewrite the parent leaf and set its COW bit, map the
child leaf to the shared PPN with the cleared flags, set the child COW
bit. -/
def cowShareVpnLoop : PageTable → PageTable → List VPN → PageTable × PageTable
  | ppt, cpt, [] => (ppt, cpt)
  | ppt, cpt, vpn :: rest =>
    let pte := (ppt.translate vpn).getD zeroPte
    let pte_flags := { pte.flags with w := false }
    let src_ppn := pte.ppn
    let ppt2 := (ppt.set_flags vpn pte_flags).set_cow vpn
    let cpt2 := (cpt.map vpn src_ppn pte_flags).set_cow vpn
    cowShareVpnLoop ppt2 cpt2 rest

/-- The second `for area in parent_areas` loop of `from_copy_on_write`:
areas whose start VPN is not above `heap_floor` are CoW-shared (the child
area is pushed already-mapped and owns no frames); the rest are skipped by
`continue`. -/
def cowShareLoop (heap_floor : VPN) :
    PageTable → MemorySet → List MapArea → PageTable × MemorySet
  | ppt, child, [] => (ppt, child)
  | ppt, child, area :: rest =>
    if heap_floor < area.vpn_start then
      cowShareLoop heap_floor ppt child rest
    else
      let s := cowShareVpnLoop ppt child.page_table area.range
      let child2 := MemorySet.push_mapped ⟨s.2, child.areas⟩ (MapArea.from_another area)
      cowShareLoop heap_floor s.1 child2 rest

/-- `MemorySet::from_copy_on_write` from `memory_set.rs`.  Returns the
parent (whose page table the call mutates in place through `&mut`) together
with the new child and the threaded allocator and memory.  The parent's
`areas` list is returned unchanged: the second loop iterates over a clone of
it. -/
def MemorySet.from_copy_on_write (user_space : MemorySet) (user_heap_top : Nat)
    (fa : FrameAllocS) (mem : Mem) : MemorySet × MemorySet × FrameAllocS × Mem :=
  let heap_floor := floorVpn user_heap_top
  let s := cowDeepLoop user_space heap_floor MemorySet.new_bare.map_trampoline fa mem
    user_space.areas
  let t := cowShareLoop heap_floor user_space.page_table s.1 user_space.areas
  (⟨t.1, user_space.areas⟩, t.2, s.2.1, s.2.2)

/-- Modelled from the spec: one program header of the parsed ELF view the
`xmas_elf` crate (not part of this repository) presents to `from_elf`. -/
structure ElfProgramHeader where
  isLoad : Bool
  vaddr : Nat
  mem_size : Nat
  file_size : Nat
  offset : Nat
  r : Bool
  w : Bool
  x : Bool
deriving DecidableEq

/-- Modelled from the spec: the parsed ELF view (program headers, entry
point, raw input bytes) the `xmas_elf` crate presents to `from_elf`. -/
structure ElfFile where
  phs : List ElfProgramHeader
  entry_point : Nat
  input : List Nat
deriving DecidableEq

/-- The `for i in 0..ph_count` loop of `from_elf`: push one framed area per
`Load` header, initialized from `input[offset .. offset + file_size]`, and
overwrite `max_end_vpn` with that area's end VPN. -/
def elfLoadLoop (input : List Nat) :
    MemorySet → FrameAllocS → Mem → VPN → List ElfProgramHeader →
    MemorySet × FrameAllocS × Mem × VPN
  | ms, fa, mem, max_end_vpn, [] => (ms, fa, mem, max_end_vpn)
  | ms, fa, mem, max_end_vpn, ph :: rest =>
    if ph.isLoad then
      let map_area := MapArea.new ph.vaddr (ph.vaddr + ph.mem_size) MapType.Framed
        ⟨ph.r, ph.w, ph.x, true⟩
      let s := ms.push map_area (some ((input.drop ph.offset).take ph.file_size)) fa mem
      elfLoadLoop input s.1 s.2.1 s.2.2 map_area.vpn_end rest
    else
      elfLoadLoop input ms fa mem max_end_vpn rest

/-- `MemorySet::from_elf` from `memory_set.rs`: trampoline, one framed area
per `Load` header, then the user heap (one guard page above `max_end_vpn`),
the trap context `[TRAP_CONTEXT, TRAMPOLINE)` and the user stack (one guard
page below `TRAP_CONTEXT`); returns
`(memory_set, user_stack_top, user_heap_bottom, entry_point)` plus the
threaded allocator and memory. -/
def MemorySet.from_elf (elf : ElfFile) (fa : FrameAllocS) (mem : Mem) :
    MemorySet × Nat × Nat × Nat × FrameAllocS × Mem :=
  let s := elfLoadLoop elf.input MemorySet.new_bare.map_trampoline fa mem 0 elf.phs
  let max_end_va := s.2.2.2 * PAGE_SIZE
  let user_heap_bottom := max_end_va + PAGE_SIZE
  let user_heap_top := user_heap_bottom + USER_HEAP_SIZE
  let h := s.1.push
    (MapArea.new user_heap_bottom user_heap_top MapType.Framed ⟨true, true, false, true⟩)
    none s.2.1 s.2.2.1
  let t := h.1.push
    (MapArea.new TRAP_CONTEXT TRAMPOLINE MapType.Framed ⟨true, true, false, false⟩)
    none h.2.1 h.2.2
  let user_stack_top := TRAP_CONTEXT - PAGE_SIZE
  let user_stack_bottom := user_stack_top - USER_STACK_SIZE
  let u := t.1.push
    (MapArea.new user_stack_bottom user_stack_top MapType.Framed ⟨true, true, false, true⟩)
    none t.2.1 t.2.2
  (u.1, user_stack_top, user_heap_bottom, elf.entry_point, u.2.1, u.2.2)

/-- An all-zero physical memory, used as the initial memory of concrete
scenarios. -/
def memZero : Mem := fun _ => []

/-- The value `max_end_vpn` holds after the program-header loop of
`from_elf`: the end VPN of the last `Load` header (the accumulator is
overwritten, not maximized). -/
def lastLoadEndVpn : VPN → List ElfProgramHeader → VPN
  | acc, [] => acc
  | acc, ph :: rest =>
    lastLoadEndVpn (if ph.isLoad then ceilVpn (ph.vaddr + ph.mem_size) else acc) rest

/-- The sublist of areas the deep-copy half of `from_copy_on_write`
processes: those whose start VPN is not below the heap-top page. -/
def areasNotBelow (hf : VPN) : List MapArea → List MapArea
  | [] => []
  | a :: rest => if a.vpn_start < hf then areasNotBelow hf rest else a :: areasNotBelow hf rest

/-- The sublist of areas the CoW half of `from_copy_on_write` processes:
those whose start VPN is not above the heap-top page. -/
def areasNotAbove (hf : VPN) : List MapArea → List MapArea
  | [] => []
  | a :: rest => if hf < a.vpn_start then areasNotAbove hf rest else a :: areasNotAbove hf rest

/-!  Basic lemmas about the page-table primitives.  -/

theorem ptLookup_modifyKey (l : List (VPN × PageTableEntry)) (k : VPN)
    (f : PageTableEntry → PageTableEntry) (v : VPN) :
    ptLookup (l.map (fun e => if e.1 = k then (e.1, f e.2) else e)) v
      = if v = k then (ptLookup l v).map f else ptLookup l v := by
  induction l with
  | nil => simp [ptLookup]
  | cons e rest ih =>
    by_cases hek : e.1 = k
    · by_cases hvk : v = k
      · simp [ptLookup, hek, hvk]
      · have hkv : ¬k = v := fun h => hvk h.symm
        simp [ptLookup, hek, hvk, hkv, ih]
    · by_cases hev : e.1 = v
      · by_cases hvk : v = k
        · exact absurd (hev.trans hvk) hek
        · simp [ptLookup, hek, hev, hvk]
      · simp [ptLookup, hek, hev, ih]

theorem ptLookup_updEntry (pt : PageTable) (k : VPN)
    (f : PageTableEntry → PageTableEntry) (v : VPN) :
    ptLookup (pt.updEntry k f).entries v
      = if v = k then (ptLookup pt.entries v).map f else ptLookup pt.entries v :=
  ptLookup_modifyKey pt.entries k f v

theorem translate_some_elim {pt : PageTable} {v : VPN} {pte : PageTableEntry}
    (h : pt.translate v = some pte) :
    ptLookup pt.entries v = some pte ∧ pte.flags.v = true := by
  unfold PageTable.translate at h
  cases hl : ptLookup pt.entries v with
  | none =>
    simp only [hl] at h
    exact Option.noConfusion h
  | some q =>
    simp only [hl] at h
    by_cases hq : q.flags.v = true
    · rw [if_pos hq] at h
      cases h
      exact ⟨rfl, hq⟩
    · rw [if_neg hq] at h
      cases h

theorem translate_some_intro {pt : PageTable} {v : VPN} {pte : PageTableEntry}
    (h1 : ptLookup pt.entries v = some pte) (h2 : pte.flags.v = true) :
    pt.translate v = some pte := by
  unfold PageTable.translate
  simp only [h1]
  rw [if_pos h2]

theorem translate_updEntry_ne (pt : PageTable) (k : VPN)
    (f : PageTableEntry → PageTableEntry) (v : VPN) (hvk : v ≠ k) :
    (pt.updEntry k f).translate v = pt.translate v := by
  unfold PageTable.translate
  rw [ptLookup_updEntry, if_neg hvk]

theorem translate_set_flags_ne (pt : PageTable) (k : VPN) (flags : PTEFlagsS) (v : VPN)
    (hvk : v ≠ k) : (pt.set_flags k flags).translate v = pt.translate v :=
  translate_updEntry_ne pt k _ v hvk

theorem translate_set_cow_ne (pt : PageTable) (k : VPN) (v : VPN) (hvk : v ≠ k) :
    (pt.set_cow k).translate v = pt.translate v :=
  translate_updEntry_ne pt k _ v hvk

theorem translate_map_self (pt : PageTable) (k : VPN) (p : PPN) (flags : PTEFlagsS) :
    (pt.map k p flags).translate k = some ⟨p, { flags with v := true }⟩ := by
  simp [PageTable.map, PageTable.translate, ptLookup]

theorem translate_map_ne (pt : PageTable) (k : VPN) (p : PPN) (flags : PTEFlagsS)
    (v : VPN) (hvk : v ≠ k) : (pt.map k p flags).translate v = pt.translate v := by
  have hkv : k ≠ v := fun h => hvk h.symm
  simp [PageTable.map, PageTable.translate, ptLookup, hkv]

theorem ptLookup_ptErase_self (l : List (VPN × PageTableEntry)) (k : VPN) :
    ptLookup (ptErase l k) k = none := by
  induction l with
  | nil => simp [ptLookup, ptErase]
  | cons e rest ih =>
    by_cases hek : e.1 = k
    · simp [ptErase, hek, ih]
    · simp [ptErase, hek, ptLookup, ih]

theorem ptLookup_ptErase_ne (l : List (VPN × PageTableEntry)) (k v : VPN) (hvk : v ≠ k) :
    ptLookup (ptErase l k) v = ptLookup l v := by
  induction l with
  | nil => simp [ptErase]
  | cons e rest ih =>
    have hkv : ¬k = v := fun h => hvk h.symm
    by_cases hek : e.1 = k
    · have hev : ¬e.1 = v := fun h => hvk (h.symm.trans hek)
      simp [ptErase, hek, ptLookup, hev, hkv, ih]
    · by_cases hev : e.1 = v
      · simp [ptErase, hek, ptLookup, hev, hvk]
      · simp [ptErase, hek, ptLookup, hev, hvk, ih]

theorem translate_unmap_self (pt : PageTable) (k : VPN) :
    (pt.unmap k).translate k = none := by
  unfold PageTable.translate PageTable.unmap
  rw [ptLookup_ptErase_self]

theorem translate_unmap_ne (pt : PageTable) (k v : VPN) (hvk : v ≠ k) :
    (pt.unmap k).translate v = pt.translate v := by
  unfold PageTable.translate PageTable.unmap
  rw [ptLookup_ptErase_ne _ _ _ hvk]

theorem mem_vpnRange {s e v : Nat} : v ∈ vpnRange s e ↔ s ≤ v ∧ v < e := by
  simp only [vpnRange, List.mem_map, List.mem_range]
  constructor
  · rintro ⟨i, hi, rfl⟩
    omega
  · rintro ⟨h1, h2⟩
    exact ⟨v - s, by omega, by omega⟩

theorem vpnRange_nodup (s e : Nat) : (vpnRange s e).Nodup :=
  List.Nodup.map (fun a b hab => by simpa using hab) (List.nodup_range (e - s))

/-!  Claim theorems.  -/

/-- C1: the claim says the fresh frame allocated by `cow_alloc` is
transferred into the `data_frames` of the `MapArea` covering `vpn`.  The
code does the opposite: no area is touched (`areas` is returned unchanged,
so no `data_frames` gains the frame) and the `FrameTracker` is dropped at
the end of the function, handing the frame straight back to the allocator
while its PPN is still installed in the leaf entry. -/
theorem cow_alloc_drops_new_frame (ms : MemorySet) (vpn : VPN) (former_ppn : PPN)
    (fa : FrameAllocS) (mem : Mem) :
    (ms.cow_alloc vpn former_ppn fa mem).2.1.areas = ms.areas ∧
    (ms.cow_alloc vpn former_ppn fa mem).2.2.1.freed = fa.next :: fa.freed ∧
    (ms.cow_alloc vpn former_ppn fa mem).2.2.1.next = fa.next + 1 :=
  ⟨rfl, rfl, rfl⟩

/-- C2: on a leaf entry with COW set, W clear and PPN `former_ppn`,
`cow_alloc` copies the former frame's page into the fresh frame (PPN
`fa.next`), rewrites this address space's entry to the fresh PPN with W set
and COW clear, the fresh PPN differs from `former_ppn`, and no other frame's
contents change (in particular the counterpart address space, an untouched
value in this embedding, still maps `former_ppn` with unchanged bytes). -/
theorem cow_alloc_functional (ms : MemorySet) (vpn : VPN) (former_ppn : PPN)
    (fa : FrameAllocS) (mem : Mem) (pte : PageTableEntry)
    (hpte : ms.translate vpn = some pte)
    (hcow : pte.flags.cow = true)
    (hw : pte.flags.w = false)
    (hppn : pte.ppn = former_ppn)
    (halloc : former_ppn < fa.next) :
    (ms.cow_alloc vpn former_ppn fa mem).2.2.2 fa.next = mem former_ppn ∧
    (ms.cow_alloc vpn former_ppn fa mem).2.1.translate vpn
      = some ⟨fa.next, { pte.flags with w := true, cow := false }⟩ ∧
    fa.next ≠ former_ppn ∧
    (∀ p, p ≠ fa.next → (ms.cow_alloc vpn former_ppn fa mem).2.2.2 p = mem p) := by
  obtain ⟨hlook, hvalid⟩ := translate_some_elim hpte
  refine ⟨?_, ?_, ?_, ?_⟩
  · show copyPage mem fa.next former_ppn fa.next = mem former_ppn
    simp [copyPage]
  · show ((ms.page_table.updEntry vpn _).translate vpn) = _
    apply translate_some_intro
    · rw [ptLookup_updEntry, if_pos rfl, hlook]
      rfl
    · exact hvalid
  · exact Nat.ne_of_gt halloc
  · intro p hp
    show copyPage mem fa.next former_ppn p = mem p
    simp [copyPage, hp]

/-- C2 witness: a concrete one-page address space in the CoW-child state
resolves its fault as the theorem states. -/
theorem cow_alloc_functional_witness :
    ((MemorySet.cow_alloc ⟨⟨[(3, ⟨7, { v := true, r := true, u := true, cow := true }⟩)], false⟩, []⟩
        3 7 ⟨8, []⟩ (fun p => if p = 7 then [1, 2, 3] else [])).2.2.2 8
      = (fun p => if p = 7 then [1, 2, 3] else [] : Mem) 7) ∧
    ((MemorySet.cow_alloc ⟨⟨[(3, ⟨7, { v := true, r := true, u := true, cow := true }⟩)], false⟩, []⟩
        3 7 ⟨8, []⟩ (fun p => if p = 7 then [1, 2, 3] else [])).2.1.translate 3
      = some ⟨8, { v := true, r := true, u := true, w := true, cow := false }⟩) ∧
    (8 : PPN) ≠ 7 ∧
    ((MemorySet.cow_alloc ⟨⟨[(3, ⟨7, { v := true, r := true, u := true, cow := true }⟩)], false⟩, []⟩
        3 7 ⟨8, []⟩ (fun p => if p = 7 then [1, 2, 3] else [])).2.2.2 5
      = (fun p => if p = 7 then [1, 2, 3] else [] : Mem) 5) := by
  have h := cow_alloc_functional
    ⟨⟨[(3, ⟨7, { v := true, r := true, u := true, cow := true }⟩)], false⟩, []⟩ 3 7 ⟨8, []⟩
    (fun p => if p = 7 then [1, 2, 3] else [])
    ⟨7, { v := true, r := true, u := true, cow := true }⟩
    (by decide) (by decide) (by decide) (by decide) (by decide)
  exact ⟨h.1, h.2.1, h.2.2.1, h.2.2.2 5 (by decide)⟩

/-- C9: `insert_mmap_area` produces exactly the state `insert_framed_area`
produces (same resulting `MemorySet` and allocator), and the `push` used by
`insert_framed_area` leaves memory untouched when `data` is `None`, so the
two are observationally identical. -/
theorem insert_mmap_area_eq_insert_framed (ms : MemorySet) (start_va end_va : Nat)
    (permission : MapPermission) (fa : FrameAllocS) (mem : Mem) :
    ms.insert_mmap_area start_va end_va permission fa
      = ((ms.insert_framed_area start_va end_va permission fa mem).1,
         (ms.insert_framed_area start_va end_va permission fa mem).2.1) ∧
    (ms.insert_framed_area start_va end_va permission fa mem).2.2 = mem :=
  ⟨rfl, rfl⟩

/-- C10: `recycle_data_pages` empties the area list, releases every frame
owned by any area's `data_frames`, and performs no page-table mutation:
`translate` is unchanged at every VPN. -/
theorem recycle_data_pages_spec (ms : MemorySet) (fa : FrameAllocS) :
    (ms.recycle_data_pages fa).1.areas = [] ∧
    (∀ vpn, (ms.recycle_data_pages fa).1.translate vpn = ms.translate vpn) ∧
    (∀ a, a ∈ ms.areas → ∀ kp, kp ∈ a.data_frames →
      kp.2 ∈ (ms.recycle_data_pages fa).2.freed) ∧
    (ms.recycle_data_pages fa).2.next = fa.next := by
  refine ⟨rfl, fun vpn => rfl, ?_, rfl⟩
  intro a ha kp hkp
  show kp.2 ∈ (ms.areas.map (fun a => a.data_frames.map (fun e => e.2))).flatten ++ fa.freed
  refine List.mem_append.mpr (Or.inl ?_)
  refine List.mem_flatten.mpr ⟨a.data_frames.map (fun e => e.2), ?_, ?_⟩
  · exact List.mem_map.mpr ⟨a, ha, rfl⟩
  · exact List.mem_map.mpr ⟨kp, hkp, rfl⟩

/-- C10 witness: a concrete one-area address space, recycled. -/
theorem recycle_data_pages_spec_witness :
    (MemorySet.recycle_data_pages
        ⟨⟨[(1, ⟨5, { v := true, r := true }⟩)], false⟩,
         [⟨1, 2, [(1, 5)], MapType.Framed, { r := true }⟩]⟩ ⟨6, []⟩).1.areas = [] ∧
    (MemorySet.recycle_data_pages
        ⟨⟨[(1, ⟨5, { v := true, r := true }⟩)], false⟩,
         [⟨1, 2, [(1, 5)], MapType.Framed, { r := true }⟩]⟩ ⟨6, []⟩).1.translate 1
      = MemorySet.translate
          ⟨⟨[(1, ⟨5, { v := true, r := true }⟩)], false⟩,
           [⟨1, 2, [(1, 5)], MapType.Framed, { r := true }⟩]⟩ 1 ∧
    (5 : PPN) ∈ (MemorySet.recycle_data_pages
        ⟨⟨[(1, ⟨5, { v := true, r := true }⟩)], false⟩,
         [⟨1, 2, [(1, 5)], MapType.Framed, { r := true }⟩]⟩ ⟨6, []⟩).2.freed := by
  have h := recycle_data_pages_spec
    ⟨⟨[(1, ⟨5, { v := true, r := true }⟩)], false⟩,
     [⟨1, 2, [(1, 5)], MapType.Framed, { r := true }⟩]⟩ ⟨6, []⟩
  exact ⟨h.1, h.2.1 1,
    h.2.2.1 ⟨1, 2, [(1, 5)], MapType.Framed, { r := true }⟩ (by decide) (1, 5) (by decide)⟩

/-!  Preservation of `MapArea` descriptor fields under mapping.  -/

theorem map_one_fields (a : MapArea) (pt : PageTable) (fa : FrameAllocS) (vpn : VPN) :
    (a.map_one pt fa vpn).1.vpn_start = a.vpn_start ∧
    (a.map_one pt fa vpn).1.vpn_end = a.vpn_end ∧
    (a.map_one pt fa vpn).1.map_type = a.map_type ∧
    (a.map_one pt fa vpn).1.map_perm = a.map_perm := by
  cases h : a.map_type <;> simp [MapArea.map_one, h]

theorem mapLoop_fields (l : List VPN) : ∀ (a : MapArea) (pt : PageTable) (fa : FrameAllocS),
    (mapLoop a pt fa l).1.vpn_start = a.vpn_start ∧
    (mapLoop a pt fa l).1.vpn_end = a.vpn_end ∧
    (mapLoop a pt fa l).1.map_type = a.map_type ∧
    (mapLoop a pt fa l).1.map_perm = a.map_perm := by
  induction l with
  | nil => intro a pt fa; exact ⟨rfl, rfl, rfl, rfl⟩
  | cons k rest ih =>
    intro a pt fa
    have h1 := map_one_fields a pt fa k
    have h2 := ih (a.map_one pt fa k).1 (a.map_one pt fa k).2.1 (a.map_one pt fa k).2.2
    simp only [mapLoop]
    exact ⟨h2.1.trans h1.1, h2.2.1.trans h1.2.1, h2.2.2.1.trans h1.2.2.1,
      h2.2.2.2.trans h1.2.2.2⟩

theorem area_map_fields (a : MapArea) (pt : PageTable) (fa : FrameAllocS) :
    (a.map pt fa).1.vpn_start = a.vpn_start ∧
    (a.map pt fa).1.vpn_end = a.vpn_end ∧
    (a.map pt fa).1.map_type = a.map_type ∧
    (a.map pt fa).1.map_perm = a.map_perm :=
  mapLoop_fields a.range a pt fa

theorem getLast_concat {α : Type} (l : List α) (x : α) : (l ++ [x]).getLast? = some x := by
  simp

theorem elfLoadLoop_max (input : List Nat) (l : List ElfProgramHeader) :
    ∀ (ms : MemorySet) (fa : FrameAllocS) (mem : Mem) (acc : VPN),
    (elfLoadLoop input ms fa mem acc l).2.2.2 = lastLoadEndVpn acc l := by
  induction l with
  | nil => intro ms fa mem acc; rfl
  | cons ph rest ih =>
    intro ms fa mem acc
    by_cases h : ph.isLoad = true
    · simp only [elfLoadLoop, lastLoadEndVpn, h, if_true, MapArea.new]
      exact ih _ _ _ _
    · simp only [elfLoadLoop, lastLoadEndVpn, h, if_false]
      exact ih _ _ _ _

/-- C7: `from_elf` returns `user_sp = TRAP_CONTEXT - PAGE_SIZE` and the ELF
header's entry point, and its last inserted area is the user stack: a framed
R|W|U area covering exactly
`[TRAP_CONTEXT - PAGE_SIZE - USER_STACK_SIZE, TRAP_CONTEXT - PAGE_SIZE)`
(both bounds page-aligned, as the two closing arithmetic conjuncts show). -/
theorem from_elf_user_stack_and_ret (elf : ElfFile) (fa : FrameAllocS) (mem : Mem) :
    (MemorySet.from_elf elf fa mem).2.1 = TRAP_CONTEXT - PAGE_SIZE ∧
    (MemorySet.from_elf elf fa mem).2.2.2.1 = elf.entry_point ∧
    (∃ a, (MemorySet.from_elf elf fa mem).1.areas.getLast? = some a ∧
      a.vpn_start = floorVpn (TRAP_CONTEXT - PAGE_SIZE - USER_STACK_SIZE) ∧
      a.vpn_end = ceilVpn (TRAP_CONTEXT - PAGE_SIZE) ∧
      a.map_type = MapType.Framed ∧
      a.map_perm = ⟨true, true, false, true⟩) ∧
    floorVpn (TRAP_CONTEXT - PAGE_SIZE - USER_STACK_SIZE) * PAGE_SIZE
      = TRAP_CONTEXT - PAGE_SIZE - USER_STACK_SIZE ∧
    ceilVpn (TRAP_CONTEXT - PAGE_SIZE) * PAGE_SIZE = TRAP_CONTEXT - PAGE_SIZE := by
  refine ⟨rfl, rfl, ?_, by decide, by decide⟩
  exact ⟨_, getLast_concat _ _, (area_map_fields _ _ _).1, (area_map_fields _ _ _).2.1,
    (area_map_fields _ _ _).2.2.1, (area_map_fields _ _ _).2.2.2⟩

/-- C5 (amended): the VPN from which the user-heap placement is derived is
the end VPN of the **last** `Load` program header in header order (the code
overwrites `max_end_vpn` instead of maximizing, so it equals the maximum
only when load segments appear in ascending address order); the user heap
then starts one page above that VPN's address, framed, R|W|U, spanning
`USER_HEAP_SIZE` bytes. -/
theorem from_elf_heap_area (elf : ElfFile) (fa : FrameAllocS) (mem : Mem) :
    (MemorySet.from_elf elf fa mem).2.2.1
      = lastLoadEndVpn 0 elf.phs * PAGE_SIZE + PAGE_SIZE ∧
    (∃ a, a ∈ (MemorySet.from_elf elf fa mem).1.areas ∧
      a.vpn_start = floorVpn (lastLoadEndVpn 0 elf.phs * PAGE_SIZE + PAGE_SIZE) ∧
      a.vpn_end = ceilVpn (lastLoadEndVpn 0 elf.phs * PAGE_SIZE + PAGE_SIZE + USER_HEAP_SIZE) ∧
      a.map_type = MapType.Framed ∧
      a.map_perm = ⟨true, true, false, true⟩) := by
  constructor
  · show (elfLoadLoop elf.input MemorySet.new_bare.map_trampoline fa mem 0 elf.phs).2.2.2
        * PAGE_SIZE + PAGE_SIZE = _
    rw [elfLoadLoop_max]
  · refine ⟨_, List.mem_append_left _ (List.mem_append_left _
      (List.mem_append_right _ (List.mem_singleton_self _))), ?_, ?_, ?_, ?_⟩
    · rw [← elfLoadLoop_max elf.input elf.phs MemorySet.new_bare.map_trampoline fa mem 0]
      exact (area_map_fields _ _ _).1
    · rw [← elfLoadLoop_max elf.input elf.phs MemorySet.new_bare.map_trampoline fa mem 0]
      exact (area_map_fields _ _ _).2.1
    · exact (area_map_fields _ _ _).2.2.1
    · exact (area_map_fields _ _ _).2.2.2

/-- C5 counterexample: an ELF whose two `Load` segments appear in descending
address order and lie far apart, so the whole construction is panic-free
(final page table has `fatal = false`: no already-valid leaf is ever
re-mapped).  The first segment ends at VPN 257, the second at VPN 2; the
claimed "maximum of the end VPNs" rule would put the heap bottom at
`257 * PAGE_SIZE + PAGE_SIZE = 1056768`, but `from_elf` derives it from the
last segment and returns `2 * PAGE_SIZE + PAGE_SIZE = 12288`. -/
theorem from_elf_heap_not_max_cex :
    (MemorySet.from_elf ⟨[⟨true, 1048576, 4096, 0, 0, true, false, false⟩,
        ⟨true, 4096, 4096, 0, 0, true, false, false⟩], 0, []⟩ ⟨0, []⟩ memZero).2.2.1
      = 12288 ∧
    (MemorySet.from_elf ⟨[⟨true, 1048576, 4096, 0, 0, true, false, false⟩,
        ⟨true, 4096, 4096, 0, 0, true, false, false⟩], 0, []⟩ ⟨0, []⟩ memZero).2.2.1
      ≠ max (ceilVpn (1048576 + 4096)) (ceilVpn (4096 + 4096)) * PAGE_SIZE + PAGE_SIZE ∧
    (MemorySet.from_elf ⟨[⟨true, 1048576, 4096, 0, 0, true, false, false⟩,
        ⟨true, 4096, 4096, 0, 0, true, false, false⟩], 0, []⟩
      ⟨0, []⟩ memZero).1.page_table.fatal = false := by
  refine ⟨by decide, by decide, by decide⟩

theorem area_map_range (ma : MapArea) (pt : PageTable) (fa : FrameAllocS) :
    (ma.map pt fa).1.range = ma.range := by
  unfold MapArea.range
  rw [(area_map_fields ma pt fa).1, (area_map_fields ma pt fa).2.1]

theorem cowDeepLoop_areas (us : MemorySet) (hf : VPN) (l : List MapArea) :
    ∀ (child : MemorySet) (fa : FrameAllocS) (mem : Mem),
    (cowDeepLoop us hf child fa mem l).1.areas.map MapArea.range
      = child.areas.map MapArea.range ++ (areasNotBelow hf l).map MapArea.range := by
  induction l with
  | nil => intro child fa mem; simp [cowDeepLoop, areasNotBelow]
  | cons a rest ih =>
    intro child fa mem
    by_cases h : a.vpn_start < hf
    · simp only [cowDeepLoop, areasNotBelow, if_pos h]
      exact ih _ _ _
    · simp only [cowDeepLoop, areasNotBelow, if_neg h]
      rw [ih]
      show (child.areas ++ [((MapArea.from_another a).map child.page_table fa).1]).map MapArea.range
          ++ _ = _
      rw [List.map_append, List.append_assoc]
      congr 1
      simp only [List.map_cons, List.map_nil, List.cons_append, List.nil_append]
      congr 1
      exact (area_map_range _ _ _).trans rfl

theorem cowShareLoop_areas (hf : VPN) (l : List MapArea) :
    ∀ (ppt : PageTable) (child : MemorySet),
    (cowShareLoop hf ppt child l).2.areas
      = child.areas ++ (areasNotAbove hf l).map MapArea.from_another := by
  induction l with
  | nil => intro ppt child; simp [cowShareLoop, areasNotAbove]
  | cons a rest ih =>
    intro ppt child
    by_cases h : hf < a.vpn_start
    · simp only [cowShareLoop, areasNotAbove, if_pos h]
      exact ih _ _
    · simp only [cowShareLoop, areasNotAbove, if_neg h]
      rw [ih]
      show (child.areas ++ [MapArea.from_another a]) ++ _ = _
      rw [List.append_assoc]
      rfl

theorem unmap_one_pt (a : MapArea) (pt : PageTable) (fa : FrameAllocS) (vpn : VPN) :
    (a.unmap_one pt fa vpn).2.1 = pt.unmap vpn := by
  cases h : a.map_type <;> simp [MapArea.unmap_one, h]

theorem unmap_one_map_type (a : MapArea) (pt : PageTable) (fa : FrameAllocS) (vpn : VPN) :
    (a.unmap_one pt fa vpn).1.map_type = a.map_type := by
  cases h : a.map_type <;> simp [MapArea.unmap_one, h]

theorem unmap_one_df_framed (a : MapArea) (pt : PageTable) (fa : FrameAllocS) (vpn : VPN)
    (hft : a.map_type = MapType.Framed) :
    (a.unmap_one pt fa vpn).1.data_frames = (dfRemove a.data_frames vpn).2 := by
  simp [MapArea.unmap_one, hft]

theorem unmap_one_freed_mono (a : MapArea) (pt : PageTable) (fa : FrameAllocS) (vpn : VPN)
    (q : PPN) (hq : q ∈ fa.freed) : q ∈ (a.unmap_one pt fa vpn).2.2.freed := by
  cases h : a.map_type
  · simpa [MapArea.unmap_one, h] using hq
  · cases hr : (dfRemove a.data_frames vpn).1 <;>
      simp [MapArea.unmap_one, h, hr, frame_free, hq]

theorem unmap_one_freed_found (a : MapArea) (pt : PageTable) (fa : FrameAllocS) (vpn : VPN)
    (p : PPN) (hft : a.map_type = MapType.Framed)
    (hf : (dfRemove a.data_frames vpn).1 = some p) :
    (a.unmap_one pt fa vpn).2.2.freed = p :: fa.freed := by
  simp [MapArea.unmap_one, hft, hf, frame_free]

theorem unmapLoop_translate (l : List VPN) :
    ∀ (a : MapArea) (pt : PageTable) (fa : FrameAllocS) (v : VPN),
    (unmapLoop a pt fa l).2.1.translate v = if v ∈ l then none else pt.translate v := by
  induction l with
  | nil => intro a pt fa v; simp [unmapLoop]
  | cons k rest ih =>
    intro a pt fa v
    simp only [unmapLoop]
    rw [ih, unmap_one_pt]
    by_cases hv : v ∈ rest
    · simp [hv]
    · by_cases hvk : v = k
      · simp [hv, hvk, translate_unmap_self]
      · simp [hv, hvk, translate_unmap_ne _ _ _ hvk]

theorem unmapLoop_freed_mono (l : List VPN) :
    ∀ (a : MapArea) (pt : PageTable) (fa : FrameAllocS) (q : PPN), q ∈ fa.freed →
    q ∈ (unmapLoop a pt fa l).2.2.freed := by
  induction l with
  | nil => intro a pt fa q hq; exact hq
  | cons k rest ih =>
    intro a pt fa q hq
    exact ih _ _ _ _ (unmap_one_freed_mono a pt fa k q hq)

theorem dfRemove_sublist (df : List (VPN × PPN)) (k : VPN) :
    (dfRemove df k).2.Sublist df := by
  induction df with
  | nil => simp [dfRemove]
  | cons e rest ih =>
    by_cases he : e.1 = k
    · simp only [dfRemove, if_pos he]
      exact List.sublist_cons_self e rest
    · simp only [dfRemove, if_neg he]
      exact List.Sublist.cons₂ e ih

theorem dfRemove_mem_of_ne (df : List (VPN × PPN)) (k : VPN) (kp : VPN × PPN)
    (hkp : kp ∈ df) (hne : kp.1 ≠ k) : kp ∈ (dfRemove df k).2 := by
  induction df with
  | nil => cases hkp
  | cons e rest ih =>
    rcases List.mem_cons.mp hkp with he | hr
    · have : ¬e.1 = k := by rw [← he] at *; exact hne
      simp only [dfRemove, if_neg this]
      exact he ▸ List.mem_cons_self e _
    · by_cases he2 : e.1 = k
      · simp only [dfRemove, if_pos he2]
        exact hr
      · simp only [dfRemove, if_neg he2]
        exact List.mem_cons_of_mem e (ih hr)

theorem dfRemove_found (df : List (VPN × PPN)) (kp : VPN × PPN)
    (hkp : kp ∈ df) (hnd : (df.map (fun e => e.1)).Nodup) :
    (dfRemove df kp.1).1 = some kp.2 := by
  induction df with
  | nil => cases hkp
  | cons e rest ih =>
    have hnd2 := hnd
    rw [List.map_cons, List.nodup_cons] at hnd2
    by_cases he : e.1 = kp.1
    · simp only [dfRemove, if_pos he]
      rcases List.mem_cons.mp hkp with h1 | h1
      · rw [h1]
      · exact absurd (he ▸ List.mem_map.mpr ⟨kp, h1, rfl⟩) hnd2.1
    · rcases List.mem_cons.mp hkp with h1 | h1
      · exact absurd (congrArg (fun e => e.1) h1.symm) he
      · simp only [dfRemove, if_neg he]
        exact ih h1 hnd2.2

theorem unmapLoop_freed (l : List VPN) :
    ∀ (a : MapArea) (pt : PageTable) (fa : FrameAllocS) (kp : VPN × PPN),
    a.map_type = MapType.Framed →
    (a.data_frames.map (fun e => e.1)).Nodup →
    kp ∈ a.data_frames → kp.1 ∈ l →
    kp.2 ∈ (unmapLoop a pt fa l).2.2.freed := by
  induction l with
  | nil => intro a pt fa kp _ _ _ hl; cases hl
  | cons k rest ih =>
    intro a pt fa kp hft hnd hkp hl
    simp only [unmapLoop]
    by_cases hk : kp.1 = k
    · have hfound : (dfRemove a.data_frames k).1 = some kp.2 := hk ▸ dfRemove_found _ kp hkp hnd
      apply unmapLoop_freed_mono
      rw [unmap_one_freed_found a pt fa k kp.2 hft hfound]
      exact List.mem_cons_self _ _
    · have hr : kp.1 ∈ rest := by
        rcases List.mem_cons.mp hl with h1 | h1
        · exact absurd h1 hk
        · exact h1
      apply ih
      · rw [unmap_one_map_type]; exact hft
      · rw [unmap_one_df_framed a pt fa k hft]
        exact List.Nodup.sublist (List.Sublist.map _ (dfRemove_sublist _ _)) hnd
      · rw [unmap_one_df_framed a pt fa k hft]
        exact dfRemove_mem_of_ne _ _ _ hkp hk
      · exact hr

theorem removeAreasLoop_none (svpn : VPN) (l : List MapArea)
    (h : ∀ b ∈ l, b.vpn_start ≠ svpn) :
    ∀ (pt : PageTable) (fa : FrameAllocS), removeAreasLoop svpn pt fa l = (pt, fa, l) := by
  induction l with
  | nil => intro pt fa; rfl
  | cons a rest ih =>
    intro pt fa
    have ha : ¬a.vpn_start = svpn := h a (List.mem_cons_self a rest)
    simp only [removeAreasLoop, if_neg ha]
    rw [ih (fun b hb => h b (List.mem_cons_of_mem a hb))]

theorem removeAreasLoop_found (svpn : VPN) (pre : List MapArea) :
    ∀ (a : MapArea) (post : List MapArea) (pt : PageTable) (fa : FrameAllocS),
    (∀ b ∈ pre, b.vpn_start ≠ svpn) → a.vpn_start = svpn →
    removeAreasLoop svpn pt fa (pre ++ a :: post)
      = ((a.unmap pt fa).2.1, (a.unmap pt fa).2.2, pre ++ post) := by
  induction pre with
  | nil =>
    intro a post pt fa _ ha
    simp only [List.nil_append, removeAreasLoop, if_pos ha]
  | cons b pre2 ih =>
    intro a post pt fa hpre ha
    have hb : ¬b.vpn_start = svpn := hpre b (List.mem_cons_self b pre2)
    show removeAreasLoop svpn pt fa (b :: (pre2 ++ a :: post)) = _
    simp only [removeAreasLoop, if_neg hb]
    rw [ih a post pt fa (fun c hc => hpre c (List.mem_cons_of_mem b hc)) ha]
    rfl

/-- C8: `remove_area_with_start_vpn` finds the first area whose range
starts exactly at the given VPN, unmaps every page of that area (afterwards
`translate` is `none` on each of its VPNs and every `FrameTracker` the area
owned under an in-range key has been dropped back to the allocator), and
removes exactly that area from the list; pages outside the area keep their
translation, and when no area starts at the VPN the whole `MemorySet` and
allocator are returned unchanged. -/
theorem remove_area_with_start_vpn_spec (ms : MemorySet) (svpn : VPN) (fa : FrameAllocS) :
    ((∀ b ∈ ms.areas, b.vpn_start ≠ svpn) →
        ms.remove_area_with_start_vpn svpn fa = (ms, fa)) ∧
    (∀ pre a post, ms.areas = pre ++ a :: post →
      (∀ b ∈ pre, b.vpn_start ≠ svpn) → a.vpn_start = svpn →
      (ms.remove_area_with_start_vpn svpn fa).1.areas = pre ++ post ∧
      (∀ v ∈ a.range, (ms.remove_area_with_start_vpn svpn fa).1.translate v = none) ∧
      (∀ v, v ∉ a.range →
        (ms.remove_area_with_start_vpn svpn fa).1.translate v = ms.translate v) ∧
      (a.map_type = MapType.Framed → (a.data_frames.map (fun e => e.1)).Nodup →
        ∀ kp ∈ a.data_frames, kp.1 ∈ a.range →
          kp.2 ∈ (ms.remove_area_with_start_vpn svpn fa).2.freed)) := by
  constructor
  · intro h
    show (⟨(removeAreasLoop svpn ms.page_table fa ms.areas).1,
           (removeAreasLoop svpn ms.page_table fa ms.areas).2.2⟩,
          (removeAreasLoop svpn ms.page_table fa ms.areas).2.1) = (ms, fa)
    rw [removeAreasLoop_none svpn ms.areas h ms.page_table fa]
  · intro pre a post hdec hpre ha
    have hloop : removeAreasLoop svpn ms.page_table fa ms.areas
        = ((a.unmap ms.page_table fa).2.1, (a.unmap ms.page_table fa).2.2, pre ++ post) := by
      rw [hdec]
      exact removeAreasLoop_found svpn pre a post ms.page_table fa hpre ha
    refine ⟨?_, ?_, ?_, ?_⟩
    · show (removeAreasLoop svpn ms.page_table fa ms.areas).2.2 = pre ++ post
      rw [hloop]
    · intro v hv
      show (removeAreasLoop svpn ms.page_table fa ms.areas).1.translate v = none
      rw [hloop]
      show (unmapLoop a ms.page_table fa a.range).2.1.translate v = none
      rw [unmapLoop_translate]
      simp [hv]
    · intro v hv
      show (removeAreasLoop svpn ms.page_table fa ms.areas).1.translate v = ms.translate v
      rw [hloop]
      show (unmapLoop a ms.page_table fa a.range).2.1.translate v = ms.translate v
      rw [unmapLoop_translate]
      simp [hv]
      rfl
    · intro hft hnd kp hkp hrange
      show kp.2 ∈ (removeAreasLoop svpn ms.page_table fa ms.areas).2.1.freed
      rw [hloop]
      exact unmapLoop_freed a.range a ms.page_table fa kp hft hnd hkp hrange

/-- C8 witness: a two-area set; removal at a start VPN no area has is a
no-op, removal at VPN 1 unmaps the first area, frees its frame 100 and
leaves only the second area. -/
theorem remove_area_with_start_vpn_spec_witness :
    (MemorySet.remove_area_with_start_vpn
      ⟨⟨[(1, ⟨100, { v := true, r := true, w := true, u := true }⟩),
         (2, ⟨101, { v := true, r := true, w := true, u := true }⟩),
         (10, ⟨50, { v := true, r := true, u := true }⟩)], false⟩,
       [⟨1, 3, [(1, 100), (2, 101)], MapType.Framed, { r := true, w := true, u := true }⟩,
        ⟨10, 11, [(10, 50)], MapType.Framed, { r := true, u := true }⟩]⟩ 7 ⟨200, []⟩)
      = (⟨⟨[(1, ⟨100, { v := true, r := true, w := true, u := true }⟩),
            (2, ⟨101, { v := true, r := true, w := true, u := true }⟩),
            (10, ⟨50, { v := true, r := true, u := true }⟩)], false⟩,
          [⟨1, 3, [(1, 100), (2, 101)], MapType.Framed, { r := true, w := true, u := true }⟩,
           ⟨10, 11, [(10, 50)], MapType.Framed, { r := true, u := true }⟩]⟩, ⟨200, []⟩) ∧
    (MemorySet.remove_area_with_start_vpn
      ⟨⟨[(1, ⟨100, { v := true, r := true, w := true, u := true }⟩),
         (2, ⟨101, { v := true, r := true, w := true, u := true }⟩),
         (10, ⟨50, { v := true, r := true, u := true }⟩)], false⟩,
       [⟨1, 3, [(1, 100), (2, 101)], MapType.Framed, { r := true, w := true, u := true }⟩,
        ⟨10, 11, [(10, 50)], MapType.Framed, { r := true, u := true }⟩]⟩ 1 ⟨200, []⟩).1.areas
      = [⟨10, 11, [(10, 50)], MapType.Framed, { r := true, u := true }⟩] ∧
    (MemorySet.remove_area_with_start_vpn
      ⟨⟨[(1, ⟨100, { v := true, r := true, w := true, u := true }⟩),
         (2, ⟨101, { v := true, r := true, w := true, u := true }⟩),
         (10, ⟨50, { v := true, r := true, u := true }⟩)], false⟩,
       [⟨1, 3, [(1, 100), (2, 101)], MapType.Framed, { r := true, w := true, u := true }⟩,
        ⟨10, 11, [(10, 50)], MapType.Framed, { r := true, u := true }⟩]⟩ 1 ⟨200, []⟩).1.translate 1
      = none ∧
    (100 : PPN) ∈ (MemorySet.remove_area_with_start_vpn
      ⟨⟨[(1, ⟨100, { v := true, r := true, w := true, u := true }⟩),
         (2, ⟨101, { v := true, r := true, w := true, u := true }⟩),
         (10, ⟨50, { v := true, r := true, u := true }⟩)], false⟩,
       [⟨1, 3, [(1, 100), (2, 101)], MapType.Framed, { r := true, w := true, u := true }⟩,
        ⟨10, 11, [(10, 50)], MapType.Framed, { r := true, u := true }⟩]⟩ 1 ⟨200, []⟩).2.freed := by
  have h1 := (remove_area_with_start_vpn_spec
    ⟨⟨[(1, ⟨100, { v := true, r := true, w := true, u := true }⟩),
       (2, ⟨101, { v := true, r := true, w := true, u := true }⟩),
       (10, ⟨50, { v := true, r := true, u := true }⟩)], false⟩,
     [⟨1, 3, [(1, 100), (2, 101)], MapType.Framed, { r := true, w := true, u := true }⟩,
      ⟨10, 11, [(10, 50)], MapType.Framed, { r := true, u := true }⟩]⟩ 7 ⟨200, []⟩).1
    (by decide)
  have h2 := (remove_area_with_start_vpn_spec
    ⟨⟨[(1, ⟨100, { v := true, r := true, w := true, u := true }⟩),
       (2, ⟨101, { v := true, r := true, w := true, u := true }⟩),
       (10, ⟨50, { v := true, r := true, u := true }⟩)], false⟩,
     [⟨1, 3, [(1, 100), (2, 101)], MapType.Framed, { r := true, w := true, u := true }⟩,
      ⟨10, 11, [(10, 50)], MapType.Framed, { r := true, u := true }⟩]⟩ 1 ⟨200, []⟩).2
    [] ⟨1, 3, [(1, 100), (2, 101)], MapType.Framed, { r := true, w := true, u := true }⟩
    [⟨10, 11, [(10, 50)], MapType.Framed, { r := true, u := true }⟩]
    rfl (by intro b hb; cases hb) rfl
  exact ⟨h1, h2.1, h2.2.1 1 (by decide), h2.2.2.2 rfl (by decide) (1, 100) (by decide) (by decide)⟩

theorem ptLookup_map_self_raw (pt : PageTable) (k : VPN) (p : PPN) (fl : PTEFlagsS) :
    ptLookup (pt.map k p fl).entries k = some ⟨p, { fl with v := true }⟩ := by
  simp [PageTable.map, ptLookup]

theorem cowShareVpnLoop_translate_ne (l : List VPN) :
    ∀ (ppt cpt : PageTable) (v : VPN), v ∉ l →
    (cowShareVpnLoop ppt cpt l).1.translate v = ppt.translate v ∧
    (cowShareVpnLoop ppt cpt l).2.translate v = cpt.translate v := by
  induction l with
  | nil => intro ppt cpt v _; exact ⟨rfl, rfl⟩
  | cons k rest ih =>
    intro ppt cpt v hv
    have hvk : v ≠ k := fun h => hv (h ▸ List.mem_cons_self k rest)
    have hvr : v ∉ rest := fun h => hv (List.mem_cons_of_mem k h)
    simp only [cowShareVpnLoop]
    constructor
    · rw [(ih _ _ v hvr).1, translate_set_cow_ne _ _ _ hvk, translate_set_flags_ne _ _ _ _ hvk]
    · rw [(ih _ _ v hvr).2, translate_set_cow_ne _ _ _ hvk, translate_map_ne _ _ _ _ _ hvk]

theorem cowShareVpnLoop_translate_in (l : List VPN) :
    ∀ (ppt cpt : PageTable) (v : VPN) (pte : PageTableEntry), l.Nodup → v ∈ l →
    ppt.translate v = some pte →
    (cowShareVpnLoop ppt cpt l).1.translate v
      = some ⟨pte.ppn, { pte.flags with w := false, cow := true }⟩ ∧
    (cowShareVpnLoop ppt cpt l).2.translate v
      = some ⟨pte.ppn, { pte.flags with w := false, cow := true }⟩ := by
  induction l with
  | nil => intro ppt cpt v pte _ hv; cases hv
  | cons k rest ih =>
    intro ppt cpt v pte hnd hv hpte
    have hnd2 := List.nodup_cons.mp hnd
    by_cases hvk : v = k
    · subst hvk
      obtain ⟨hlook, hvalid⟩ := translate_some_elim hpte
      obtain ⟨pn, fl⟩ := pte
      obtain ⟨fv, fr, fw, fx, fu, fg, facc, fd, fcw⟩ := fl
      replace hvalid : fv = true := hvalid
      subst hvalid
      simp only [cowShareVpnLoop, hpte, Option.getD_some]
      have hfr := cowShareVpnLoop_translate_ne rest
        ((ppt.set_flags v ⟨true, fr, false, fx, fu, fg, facc, fd, fcw⟩).set_cow v)
        ((cpt.map v pn ⟨true, fr, false, fx, fu, fg, facc, fd, fcw⟩).set_cow v) v hnd2.1
      refine ⟨hfr.1.trans ?_, hfr.2.trans ?_⟩
      · apply translate_some_intro
        · show ptLookup (PageTable.updEntry _ v _).entries v = _
          rw [ptLookup_updEntry, if_pos rfl]
          show (ptLookup (PageTable.updEntry ppt v _).entries v).map _ = _
          rw [ptLookup_updEntry, if_pos rfl, hlook]
          rfl
        · rfl
      · apply translate_some_intro
        · show ptLookup (PageTable.updEntry _ v _).entries v = _
          rw [ptLookup_updEntry, if_pos rfl, ptLookup_map_self_raw]
          rfl
        · rfl
    · have hvr : v ∈ rest := by
        rcases List.mem_cons.mp hv with h | h
        · exact absurd h hvk
        · exact h
      simp only [cowShareVpnLoop]
      apply ih
      · exact hnd2.2
      · exact hvr
      · rw [translate_set_cow_ne _ _ _ hvk, translate_set_flags_ne _ _ _ _ hvk]
        exact hpte

theorem cowShareLoop_translate_notin (l : List MapArea) :
    ∀ (hf : VPN) (ppt : PageTable) (child : MemorySet) (v : VPN),
    (∀ b ∈ l, v ∉ b.range) →
    (cowShareLoop hf ppt child l).1.translate v = ppt.translate v ∧
    (cowShareLoop hf ppt child l).2.page_table.translate v = child.page_table.translate v := by
  induction l with
  | nil => intro hf ppt child v _; exact ⟨rfl, rfl⟩
  | cons b rest ih =>
    intro hf ppt child v hout
    have hb : v ∉ b.range := hout b (List.mem_cons_self b rest)
    have hrest : ∀ c ∈ rest, v ∉ c.range := fun c hc => hout c (List.mem_cons_of_mem b hc)
    by_cases hg : hf < b.vpn_start
    · simp only [cowShareLoop, if_pos hg]
      exact ih hf ppt child v hrest
    · simp only [cowShareLoop, if_neg hg]
      have hstep := cowShareVpnLoop_translate_ne b.range ppt child.page_table v hb
      have := ih hf (cowShareVpnLoop ppt child.page_table b.range).1
        (MemorySet.push_mapped ⟨(cowShareVpnLoop ppt child.page_table b.range).2, child.areas⟩
          (MapArea.from_another b)) v hrest
      exact ⟨this.1.trans hstep.1, this.2.trans hstep.2⟩

theorem cowShareLoop_found (pre : List MapArea) :
    ∀ (hf : VPN) (a : MapArea) (post : List MapArea) (ppt : PageTable) (child : MemorySet)
      (v : VPN) (pte : PageTableEntry),
    (∀ b ∈ pre, v ∉ b.range) → (∀ b ∈ post, v ∉ b.range) →
    ¬hf < a.vpn_start → v ∈ a.range → ppt.translate v = some pte →
    (cowShareLoop hf ppt child (pre ++ a :: post)).1.translate v
      = some ⟨pte.ppn, { pte.flags with w := false, cow := true }⟩ ∧
    (cowShareLoop hf ppt child (pre ++ a :: post)).2.page_table.translate v
      = some ⟨pte.ppn, { pte.flags with w := false, cow := true }⟩ ∧
    MapArea.from_another a ∈ (cowShareLoop hf ppt child (pre ++ a :: post)).2.areas := by
  induction pre with
  | nil =>
    intro hf a post ppt child v pte _ hpost hg hv hpte
    show (cowShareLoop hf ppt child (a :: post)).1.translate v = _ ∧ _
    simp only [cowShareLoop, if_neg hg]
    have hstep := cowShareVpnLoop_translate_in a.range ppt child.page_table v pte
      (vpnRange_nodup a.vpn_start a.vpn_end) hv hpte
    have hfr := cowShareLoop_translate_notin post hf
      (cowShareVpnLoop ppt child.page_table a.range).1
      (MemorySet.push_mapped ⟨(cowShareVpnLoop ppt child.page_table a.range).2, child.areas⟩
        (MapArea.from_another a)) v hpost
    refine ⟨hfr.1.trans hstep.1, hfr.2.trans hstep.2, ?_⟩
    rw [cowShareLoop_areas]
    exact List.mem_append_left _ (List.mem_append_right _ (List.mem_singleton_self _))
  | cons b pre2 ih =>
    intro hf a post ppt child v pte hpre hpost hg hv hpte
    have hb : v ∉ b.range := hpre b (List.mem_cons_self b pre2)
    have hpre2 : ∀ c ∈ pre2, v ∉ c.range := fun c hc => hpre c (List.mem_cons_of_mem b hc)
    show (cowShareLoop hf ppt child (b :: (pre2 ++ a :: post))).1.translate v = _ ∧ _
    by_cases hgb : hf < b.vpn_start
    · simp only [cowShareLoop, if_pos hgb]
      exact ih hf a post ppt child v pte hpre2 hpost hg hv hpte
    · simp only [cowShareLoop, if_neg hgb]
      apply ih hf a post _ _ v pte hpre2 hpost hg hv
      rw [(cowShareVpnLoop_translate_ne b.range ppt child.page_table v hb).1]
      exact hpte

/-- C4: after `from_copy_on_write(parent, heap_top)`, for every VPN of a
parent area lying entirely below `heap_top`'s page that was mapped in the
parent (and with parent areas pairwise disjoint, spec invariant 1), the
parent's and the child's leaf entries both carry the original PPN with the
Write bit cleared and the COW bit set; the parent's area list (hence its
frame ownership) is unchanged, and the child's `MapArea` for that range is
the `from_another` clone, which owns no frames. -/
theorem from_cow_shared_below (ms : MemorySet) (ht : Nat) (fa : FrameAllocS) (mem : Mem)
    (a : MapArea) (vpn : VPN) (pte : PageTableEntry)
    (ha : a ∈ ms.areas)
    (hdisj : ms.areas.Pairwise (fun x y => ∀ u ∈ x.range, u ∉ y.range))
    (hbelow : a.vpn_end ≤ floorVpn ht)
    (hv : vpn ∈ a.range)
    (hpte : ms.translate vpn = some pte) :
    (MemorySet.from_copy_on_write ms ht fa mem).1.translate vpn
      = some ⟨pte.ppn, { pte.flags with w := false, cow := true }⟩ ∧
    (MemorySet.from_copy_on_write ms ht fa mem).2.1.translate vpn
      = some ⟨pte.ppn, { pte.flags with w := false, cow := true }⟩ ∧
    (MemorySet.from_copy_on_write ms ht fa mem).1.areas = ms.areas ∧
    MapArea.from_another a ∈ (MemorySet.from_copy_on_write ms ht fa mem).2.1.areas ∧
    (MapArea.from_another a).data_frames = [] := by
  obtain ⟨pre, post, hdec⟩ := List.append_of_mem ha
  have hvb := mem_vpnRange.mp hv
  have hguard : ¬floorVpn ht < a.vpn_start := by
    intro hc
    exact Nat.lt_irrefl vpn
      (Nat.lt_trans (Nat.lt_of_lt_of_le hvb.2 hbelow) (Nat.lt_of_lt_of_le hc hvb.1))
  rw [hdec] at hdisj
  have hpair := List.pairwise_append.mp hdisj
  have hpre : ∀ b ∈ pre, vpn ∉ b.range := by
    intro b hb hvpnb
    exact (hpair.2.2 b hb a (List.mem_cons_self a post)) vpn hvpnb hv
  have hpost : ∀ b ∈ post, vpn ∉ b.range := by
    intro b hb
    exact (List.pairwise_cons.mp hpair.2.1).1 b hb vpn hv
  have hmain := cowShareLoop_found pre (floorVpn ht) a post ms.page_table
    (cowDeepLoop ms (floorVpn ht) MemorySet.new_bare.map_trampoline fa mem ms.areas).1
    vpn pte hpre hpost hguard hv hpte
  rw [← hdec] at hmain
  exact ⟨hmain.1, hmain.2.1, rfl, hmain.2.2, rfl⟩

/-- C4 witness: a one-area one-page parent forked at a heap top above the
area; both resulting entries at VPN 2 keep PPN 5 with W clear and COW set,
the parent keeps its area (and frame), and the child holds the frameless
clone. -/
theorem from_cow_shared_below_witness :
    (MemorySet.from_copy_on_write
        ⟨⟨[(2, ⟨5, { v := true, r := true, w := true, u := true }⟩)], false⟩,
         [⟨2, 3, [(2, 5)], MapType.Framed, { r := true, w := true, u := true }⟩]⟩
        16384 ⟨6, []⟩ memZero).1.translate 2
      = some ⟨5, { v := true, r := true, u := true, cow := true }⟩ ∧
    (MemorySet.from_copy_on_write
        ⟨⟨[(2, ⟨5, { v := true, r := true, w := true, u := true }⟩)], false⟩,
         [⟨2, 3, [(2, 5)], MapType.Framed, { r := true, w := true, u := true }⟩]⟩
        16384 ⟨6, []⟩ memZero).2.1.translate 2
      = some ⟨5, { v := true, r := true, u := true, cow := true }⟩ ∧
    (MemorySet.from_copy_on_write
        ⟨⟨[(2, ⟨5, { v := true, r := true, w := true, u := true }⟩)], false⟩,
         [⟨2, 3, [(2, 5)], MapType.Framed, { r := true, w := true, u := true }⟩]⟩
        16384 ⟨6, []⟩ memZero).1.areas
      = [⟨2, 3, [(2, 5)], MapType.Framed, { r := true, w := true, u := true }⟩] ∧
    (⟨2, 3, [], MapType.Framed, { r := true, w := true, u := true }⟩ : MapArea)
      ∈ (MemorySet.from_copy_on_write
        ⟨⟨[(2, ⟨5, { v := true, r := true, w := true, u := true }⟩)], false⟩,
         [⟨2, 3, [(2, 5)], MapType.Framed, { r := true, w := true, u := true }⟩]⟩
        16384 ⟨6, []⟩ memZero).2.1.areas := by
  have h := from_cow_shared_below
    ⟨⟨[(2, ⟨5, { v := true, r := true, w := true, u := true }⟩)], false⟩,
     [⟨2, 3, [(2, 5)], MapType.Framed, { r := true, w := true, u := true }⟩]⟩
    16384 ⟨6, []⟩ memZero
    ⟨2, 3, [(2, 5)], MapType.Framed, { r := true, w := true, u := true }⟩ 2
    ⟨5, { v := true, r := true, w := true, u := true }⟩
    (by decide) (by decide) (by decide) (by decide) (by decide)
  exact ⟨h.1, h.2.1, h.2.2.1, h.2.2.2.1⟩

theorem exists_last_occ {α : Type} {v : α} {l : List α} (h : v ∈ l) :
    ∃ l1 l2, l = l1 ++ v :: l2 ∧ v ∉ l2 := by
  induction l with
  | nil => cases h
  | cons b rest ih =>
    by_cases hr : v ∈ rest
    · obtain ⟨l1, l2, hdec, hout⟩ := ih hr
      exact ⟨b :: l1, l2, by rw [hdec]; rfl, hout⟩
    · rcases List.mem_cons.mp h with h1 | h1
      · subst h1
        exact ⟨[], rest, rfl, hr⟩
      · exact absurd h1 hr

theorem map_one_framed (a : MapArea) (pt : PageTable) (fa : FrameAllocS) (vpn : VPN)
    (hft : a.map_type = MapType.Framed) :
    (a.map_one pt fa vpn).2.1 = pt.map vpn fa.next a.map_perm.toPTEFlags ∧
    (a.map_one pt fa vpn).2.2 = ⟨fa.next + 1, fa.freed⟩ := by
  simp [MapArea.map_one, hft, frame_alloc]

theorem map_one_pt_shape (a : MapArea) (pt : PageTable) (fa : FrameAllocS) (vpn : VPN) :
    ∃ p, (a.map_one pt fa vpn).2.1 = pt.map vpn p a.map_perm.toPTEFlags := by
  cases h : a.map_type
  · exact ⟨vpn, by simp [MapArea.map_one, h]⟩
  · exact ⟨fa.next, by simp [MapArea.map_one, h, frame_alloc]⟩

theorem map_one_next_mono (a : MapArea) (pt : PageTable) (fa : FrameAllocS) (vpn : VPN) :
    fa.next ≤ (a.map_one pt fa vpn).2.2.next := by
  cases h : a.map_type
  · simp [MapArea.map_one, h]
  · simp [MapArea.map_one, h, frame_alloc]

theorem mapLoop_next_mono (l : List VPN) :
    ∀ (a : MapArea) (pt : PageTable) (fa : FrameAllocS),
    fa.next ≤ (mapLoop a pt fa l).2.2.next := by
  induction l with
  | nil => intro a pt fa; exact Nat.le_refl _
  | cons k rest ih =>
    intro a pt fa
    exact Nat.le_trans (map_one_next_mono a pt fa k) (ih _ _ _)

theorem mapLoop_framed_next (l : List VPN) :
    ∀ (a : MapArea) (pt : PageTable) (fa : FrameAllocS), a.map_type = MapType.Framed →
    (mapLoop a pt fa l).2.2.next = fa.next + l.length := by
  induction l with
  | nil => intro a pt fa _; rfl
  | cons k rest ih =>
    intro a pt fa hft
    simp only [mapLoop]
    rw [ih _ _ _ ((map_one_fields a pt fa k).2.2.1.trans hft), (map_one_framed a pt fa k hft).2]
    show fa.next + 1 + rest.length = fa.next + (rest.length + 1)
    rw [Nat.add_assoc, Nat.add_comm 1 rest.length]

theorem mapLoop_translate_notin (l : List VPN) :
    ∀ (a : MapArea) (pt : PageTable) (fa : FrameAllocS) (v : VPN), v ∉ l →
    (mapLoop a pt fa l).2.1.translate v = pt.translate v := by
  induction l with
  | nil => intro a pt fa v _; rfl
  | cons k rest ih =>
    intro a pt fa v hv
    have hvk : v ≠ k := fun h => hv (h ▸ List.mem_cons_self k rest)
    have hvr : v ∉ rest := fun h => hv (List.mem_cons_of_mem k h)
    simp only [mapLoop]
    rw [ih _ _ _ v hvr]
    obtain ⟨p, hp⟩ := map_one_pt_shape a pt fa k
    rw [hp, translate_map_ne _ _ _ _ _ hvk]

theorem mapLoop_framed_translate_at (l1 : List VPN) :
    ∀ (a : MapArea) (pt : PageTable) (fa : FrameAllocS) (v : VPN) (l2 : List VPN),
    a.map_type = MapType.Framed → v ∉ l2 →
    (mapLoop a pt fa (l1 ++ v :: l2)).2.1.translate v
      = some ⟨fa.next + l1.length, { a.map_perm.toPTEFlags with v := true }⟩ := by
  induction l1 with
  | nil =>
    intro a pt fa v l2 hft hout
    show (mapLoop a pt fa (v :: l2)).2.1.translate v = _
    simp only [mapLoop]
    rw [mapLoop_translate_notin l2 _ _ _ v hout, (map_one_framed a pt fa v hft).1,
      translate_map_self]
    rfl
  | cons b l1x ih =>
    intro a pt fa v l2 hft hout
    show (mapLoop a pt fa (b :: (l1x ++ v :: l2))).2.1.translate v = _
    simp only [mapLoop]
    rw [ih _ _ _ v l2 ((map_one_fields a pt fa b).2.2.1.trans hft) hout,
      (map_one_fields a pt fa b).2.2.2, (map_one_framed a pt fa b hft).2]
    simp only [List.length_cons]
    rw [Nat.add_assoc, Nat.add_comm 1 l1x.length]

theorem copyPage_at (mem : Mem) (dst src : PPN) : copyPage mem dst src dst = mem src := by
  simp [copyPage]

theorem copyPage_ne (mem : Mem) (dst src p : PPN) (h : p ≠ dst) :
    copyPage mem dst src p = mem p := by
  simp [copyPage, h]

theorem writeByte_ne (mem : Mem) (dst : PPN) (i b : Nat) (p : PPN) (h : p ≠ dst) :
    writeByte mem dst i b p = mem p := by
  simp [writeByte, h]

theorem copyAreaLoop_frame (parent child : MemorySet) (l : List VPN) :
    ∀ (mem : Mem) (p : PPN),
    (∀ u ∈ l, ((child.translate u).getD zeroPte).ppn ≠ p) →
    copyAreaLoop parent child mem l p = mem p := by
  induction l with
  | nil => intro mem p _; rfl
  | cons k rest ih =>
    intro mem p hout
    show copyAreaLoop parent child _ rest p = mem p
    rw [ih _ p (fun u hu => hout u (List.mem_cons_of_mem k hu))]
    exact copyPage_ne _ _ _ _ (fun h => hout k (List.mem_cons_self k rest) h.symm)

theorem copyAreaLoop_last_write (parent child : MemorySet) (l1 : List VPN) :
    ∀ (mem : Mem) (v : VPN) (l2 : List VPN) (p : PPN),
    ((child.translate v).getD zeroPte).ppn = p →
    (∀ u ∈ l2, ((child.translate u).getD zeroPte).ppn ≠ p) →
    (∀ u ∈ l1, ((child.translate u).getD zeroPte).ppn
      ≠ ((parent.translate v).getD zeroPte).ppn) →
    copyAreaLoop parent child mem (l1 ++ v :: l2) p
      = mem ((parent.translate v).getD zeroPte).ppn := by
  induction l1 with
  | nil =>
    intro mem v l2 p hdst hl2 _
    show copyAreaLoop parent child _ l2 p = _
    rw [copyAreaLoop_frame parent child l2 _ p hl2, hdst, copyPage_at]
  | cons b l1x ih =>
    intro mem v l2 p hdst hl2 hl1
    show copyAreaLoop parent child _ (l1x ++ v :: l2) p = _
    rw [ih _ v l2 p hdst hl2 (fun u hu => hl1 u (List.mem_cons_of_mem b hu))]
    exact copyPage_ne _ _ _ _ (hl1 b (List.mem_cons_self b l1x)).symm

theorem push_translate_at (child : MemorySet) (b : MapArea) (fa : FrameAllocS) (mem : Mem)
    (u : VPN) (l1 l2 : List VPN) (hft : b.map_type = MapType.Framed)
    (hdec : b.range = l1 ++ u :: l2) (hout : u ∉ l2) :
    (child.push (MapArea.from_another b) none fa mem).1.translate u
      = some ⟨fa.next + l1.length, { b.map_perm.toPTEFlags with v := true }⟩ := by
  show (mapLoop (MapArea.from_another b) child.page_table fa
      (MapArea.from_another b).range).2.1.translate u = _
  have hdec2 : (MapArea.from_another b).range = l1 ++ u :: l2 := hdec
  rw [hdec2]
  exact mapLoop_framed_translate_at l1 _ _ _ u l2 hft hout

theorem push_translate_fresh (child : MemorySet) (b : MapArea) (fa : FrameAllocS) (mem : Mem)
    (u : VPN) (hft : b.map_type = MapType.Framed) (hu : u ∈ b.range) :
    fa.next
      ≤ (((child.push (MapArea.from_another b) none fa mem).1.translate u).getD zeroPte).ppn := by
  obtain ⟨l1, l2, hdec, hout⟩ := exists_last_occ hu
  rw [push_translate_at child b fa mem u l1 l2 hft hdec hout]
  show fa.next ≤ fa.next + l1.length
  exact Nat.le_add_right _ _

theorem push_translate_notin (child : MemorySet) (b : MapArea) (fa : FrameAllocS) (mem : Mem)
    (v : VPN) (hv : v ∉ b.range) :
    (child.push (MapArea.from_another b) none fa mem).1.translate v = child.translate v := by
  show (mapLoop (MapArea.from_another b) child.page_table fa
      (MapArea.from_another b).range).2.1.translate v = _
  have hv2 : v ∉ (MapArea.from_another b).range := hv
  exact mapLoop_translate_notin _ _ _ _ v hv2

theorem push_next_mono (child : MemorySet) (b : MapArea) (fa : FrameAllocS) (mem : Mem) :
    fa.next ≤ (child.push (MapArea.from_another b) none fa mem).2.1.next := by
  show fa.next ≤ (mapLoop (MapArea.from_another b) child.page_table fa
      (MapArea.from_another b).range).2.2.next
  exact mapLoop_next_mono _ _ _ _

theorem push_next_framed (child : MemorySet) (b : MapArea) (fa : FrameAllocS) (mem : Mem)
    (hft : b.map_type = MapType.Framed) :
    (child.push (MapArea.from_another b) none fa mem).2.1.next = fa.next + b.range.length := by
  show (mapLoop (MapArea.from_another b) child.page_table fa
      (MapArea.from_another b).range).2.2.next = _
  exact mapLoop_framed_next _ _ _ _ hft

theorem feuLoop_translate_notin (l : List MapArea) :
    ∀ (parent child : MemorySet) (fa : FrameAllocS) (mem : Mem) (v : VPN),
    (∀ b ∈ l, v ∉ b.range) →
    (feuLoop parent child fa mem l).1.translate v = child.translate v := by
  induction l with
  | nil => intro parent child fa mem v _; rfl
  | cons b rest ih =>
    intro parent child fa mem v hout
    simp only [feuLoop]
    rw [ih _ _ _ _ v (fun c hc => hout c (List.mem_cons_of_mem b hc))]
    exact push_translate_notin child b fa mem v (hout b (List.mem_cons_self b rest))

theorem feuLoop_next_mono (l : List MapArea) :
    ∀ (parent child : MemorySet) (fa : FrameAllocS) (mem : Mem),
    fa.next ≤ (feuLoop parent child fa mem l).2.1.next := by
  induction l with
  | nil => intro parent child fa mem; exact Nat.le_refl _
  | cons b rest ih =>
    intro parent child fa mem
    simp only [feuLoop]
    exact Nat.le_trans (push_next_mono child b fa mem) (ih _ _ _ _)

theorem feuLoop_mem_frame (l : List MapArea) :
    ∀ (parent child : MemorySet) (fa : FrameAllocS) (mem : Mem) (p : PPN),
    (∀ b ∈ l, b.map_type = MapType.Framed) → p < fa.next →
    (feuLoop parent child fa mem l).2.2 p = mem p := by
  induction l with
  | nil => intro parent child fa mem p _ _; rfl
  | cons b rest ih =>
    intro parent child fa mem p hfl hp
    have hfb : b.map_type = MapType.Framed := hfl b (List.mem_cons_self b rest)
    simp only [feuLoop]
    rw [ih _ _ _ _ p (fun c hc => hfl c (List.mem_cons_of_mem b hc))
      (Nat.lt_of_lt_of_le hp (push_next_mono child b fa mem))]
    rw [copyAreaLoop_frame _ _ _ _ p ?hout]
    case hout =>
      intro u hu heq
      exact Nat.lt_irrefl p
        (Nat.lt_of_lt_of_le hp (heq ▸ push_translate_fresh child b fa mem u hfb hu))
    rfl

theorem feuLoop_found (L1 : List MapArea) :
    ∀ (parent : MemorySet) (a : MapArea) (L2 : List MapArea) (child : MemorySet)
      (fa : FrameAllocS) (mem : Mem) (vpn : VPN) (pte : PageTableEntry),
    (∀ b ∈ L1, b.map_type = MapType.Framed) →
    a.map_type = MapType.Framed →
    (∀ b ∈ L2, b.map_type = MapType.Framed) →
    (∀ b ∈ L2, vpn ∉ b.range) →
    vpn ∈ a.range →
    parent.translate vpn = some pte →
    pte.ppn < fa.next →
    ∃ P, fa.next ≤ P ∧
      (feuLoop parent child fa mem (L1 ++ a :: L2)).1.translate vpn
        = some ⟨P, { a.map_perm.toPTEFlags with v := true }⟩ ∧
      (feuLoop parent child fa mem (L1 ++ a :: L2)).2.2 P = mem pte.ppn := by
  induction L1 with
  | nil =>
    intro parent a L2 child fa mem vpn pte _ hfa hfL2 hout2 hv hpte hppn
    obtain ⟨r1, r2, hdec, hnr2⟩ := exists_last_occ hv
    refine ⟨fa.next + r1.length, Nat.le_add_right _ _, ?_, ?_⟩
    · show (feuLoop parent (child.push (MapArea.from_another a) none fa mem).1
          (child.push (MapArea.from_another a) none fa mem).2.1
          (copyAreaLoop parent (child.push (MapArea.from_another a) none fa mem).1
            (child.push (MapArea.from_another a) none fa mem).2.2 a.range)
          L2).1.translate vpn = _
      rw [feuLoop_translate_notin L2 parent _ _ _ vpn hout2]
      exact push_translate_at child a fa mem vpn r1 r2 hfa hdec hnr2
    · show (feuLoop parent (child.push (MapArea.from_another a) none fa mem).1
          (child.push (MapArea.from_another a) none fa mem).2.1
          (copyAreaLoop parent (child.push (MapArea.from_another a) none fa mem).1
            (child.push (MapArea.from_another a) none fa mem).2.2 a.range)
          L2).2.2 (fa.next + r1.length) = _
      rw [feuLoop_mem_frame L2 parent _ _ _ _ hfL2 ?plt]
      case plt =>
        rw [push_next_framed child a fa mem hfa]
        have hlen : r1.length < a.range.length := by
          rw [hdec, List.length_append, List.length_cons]
          exact Nat.lt_add_of_pos_right (Nat.succ_pos r2.length)
        exact Nat.add_lt_add_left hlen fa.next
      have hdec2 := hdec
      rw [hdec2]
      rw [copyAreaLoop_last_write parent _ r1 _ vpn r2 (fa.next + r1.length) ?hdst ?hr2 ?hr1]
      case hdst =>
        rw [push_translate_at child a fa mem vpn r1 r2 hfa hdec hnr2]
        rfl
      case hr2 =>
        intro u hu heq
        obtain ⟨s1, s2, hd2, ho2⟩ := exists_last_occ hu
        have hdec3 : a.range = (r1 ++ vpn :: s1) ++ u :: s2 := by
          rw [hdec, hd2, List.append_assoc]
          rfl
        rw [push_translate_at child a fa mem u (r1 ++ vpn :: s1) s2 hfa hdec3 ho2] at heq
        have hlen2 : (r1 ++ vpn :: s1).length = r1.length + (s1.length + 1) := by
          rw [List.length_append, List.length_cons]
        have heq2 : fa.next + (r1.length + (s1.length + 1)) = fa.next + r1.length := by
          rw [← hlen2]
          exact heq
        have heq3 := Nat.add_left_cancel heq2
        exact absurd heq3 (Nat.ne_of_gt (Nat.lt_add_of_pos_right (Nat.succ_pos s1.length)))
      case hr1 =>
        intro u hu heq
        have humem : u ∈ a.range := by
          rw [hdec]
          exact List.mem_append_left _ hu
        have hfresh := push_translate_fresh child a fa mem u hfa humem
        rw [heq] at hfresh
        have hsrc : ((parent.translate vpn).getD zeroPte).ppn = pte.ppn := by
          rw [hpte]
          rfl
        rw [hsrc] at hfresh
        exact Nat.lt_irrefl pte.ppn (Nat.lt_of_lt_of_le hppn hfresh)
      show (child.push (MapArea.from_another a) none fa mem).2.2
          ((parent.translate vpn).getD zeroPte).ppn = mem pte.ppn
      rw [hpte]
      rfl
  | cons b L1x ih =>
    intro parent a L2 child fa mem vpn pte hfL1 hfa hfL2 hout2 hv hpte hppn
    have hfb : b.map_type = MapType.Framed := hfL1 b (List.mem_cons_self b L1x)
    have hfL1x : ∀ c ∈ L1x, c.map_type = MapType.Framed :=
      fun c hc => hfL1 c (List.mem_cons_of_mem b hc)
    obtain ⟨P, hP1, hP2, hP3⟩ := ih parent a L2
      (child.push (MapArea.from_another b) none fa mem).1
      (child.push (MapArea.from_another b) none fa mem).2.1
      (copyAreaLoop parent (child.push (MapArea.from_another b) none fa mem).1
        (child.push (MapArea.from_another b) none fa mem).2.2 b.range)
      vpn pte hfL1x hfa hfL2 hout2 hv hpte
      (Nat.lt_of_lt_of_le hppn (push_next_mono child b fa mem))
    refine ⟨P, Nat.le_trans (push_next_mono child b fa mem) hP1, hP2, hP3.trans ?_⟩
    rw [copyAreaLoop_frame _ _ _ _ pte.ppn ?hout]
    case hout =>
      intro u hu heq
      exact Nat.lt_irrefl pte.ppn
        (Nat.lt_of_lt_of_le hppn (heq ▸ push_translate_fresh child b fa mem u hfb hu))
    rfl

/-- C6: `from_existed_user` deep-clones without CoW.  For every VPN mapped
by some (framed) area of the parent, with parent areas pairwise disjoint and
the parent's frame already allocated, the child maps the VPN to a fresh
frame (PPN at or above the allocator's pre-call watermark, hence distinct
from the parent's), whose page contents equal the parent page's contents at
copy time; the parent's page itself is untouched, and a subsequent
`writeByte` through the parent's frame does not change what the child's
frame holds, nor vice versa. -/
theorem from_existed_user_deep (ms : MemorySet) (fa : FrameAllocS) (mem : Mem)
    (a : MapArea) (vpn : VPN) (pte : PageTableEntry)
    (hframed : ∀ b ∈ ms.areas, b.map_type = MapType.Framed)
    (hdisj : ms.areas.Pairwise (fun x y => ∀ u ∈ x.range, u ∉ y.range))
    (ha : a ∈ ms.areas) (hv : vpn ∈ a.range)
    (hpte : ms.translate vpn = some pte)
    (hppn : pte.ppn < fa.next) :
    (MemorySet.from_existed_user ms fa mem).1.translate vpn
      = some ⟨(((MemorySet.from_existed_user ms fa mem).1.translate vpn).getD zeroPte).ppn,
          { a.map_perm.toPTEFlags with v := true }⟩ ∧
    fa.next ≤ (((MemorySet.from_existed_user ms fa mem).1.translate vpn).getD zeroPte).ppn ∧
    (((MemorySet.from_existed_user ms fa mem).1.translate vpn).getD zeroPte).ppn ≠ pte.ppn ∧
    (MemorySet.from_existed_user ms fa mem).2.2
        ((((MemorySet.from_existed_user ms fa mem).1.translate vpn).getD zeroPte).ppn)
      = mem pte.ppn ∧
    (MemorySet.from_existed_user ms fa mem).2.2 pte.ppn = mem pte.ppn ∧
    (∀ i byte, writeByte ((MemorySet.from_existed_user ms fa mem).2.2) pte.ppn i byte
        ((((MemorySet.from_existed_user ms fa mem).1.translate vpn).getD zeroPte).ppn)
      = (MemorySet.from_existed_user ms fa mem).2.2
          ((((MemorySet.from_existed_user ms fa mem).1.translate vpn).getD zeroPte).ppn)) ∧
    (∀ i byte, writeByte ((MemorySet.from_existed_user ms fa mem).2.2)
        ((((MemorySet.from_existed_user ms fa mem).1.translate vpn).getD zeroPte).ppn) i byte
        pte.ppn
      = (MemorySet.from_existed_user ms fa mem).2.2 pte.ppn) := by
  obtain ⟨L1, L2, hdec⟩ := List.append_of_mem ha
  rw [hdec] at hframed hdisj
  have hfa : a.map_type = MapType.Framed :=
    hframed a (List.mem_append_right L1 (List.mem_cons_self a L2))
  have hfL1 : ∀ b ∈ L1, b.map_type = MapType.Framed :=
    fun b hb => hframed b (List.mem_append_left _ hb)
  have hfL2 : ∀ b ∈ L2, b.map_type = MapType.Framed :=
    fun b hb => hframed b (List.mem_append_right _ (List.mem_cons_of_mem a hb))
  have hpair := List.pairwise_append.mp hdisj
  have hout2 : ∀ b ∈ L2, vpn ∉ b.range :=
    fun b hb => (List.pairwise_cons.mp hpair.2.1).1 b hb vpn hv
  obtain ⟨P, hP1, hP2, hP3⟩ := feuLoop_found L1 ms a L2 MemorySet.new_bare.map_trampoline
    fa mem vpn pte hfL1 hfa hfL2 hout2 hv hpte hppn
  have hfeu : MemorySet.from_existed_user ms fa mem
      = feuLoop ms MemorySet.new_bare.map_trampoline fa mem (L1 ++ a :: L2) := by
    show feuLoop ms MemorySet.new_bare.map_trampoline fa mem ms.areas = _
    rw [hdec]
  have hne : (((MemorySet.from_existed_user ms fa mem).1.translate vpn).getD zeroPte).ppn
      ≠ pte.ppn := by
    rw [hfeu, hP2]
    exact Nat.ne_of_gt (Nat.lt_of_lt_of_le hppn hP1)
  refine ⟨?_, ?_, hne, ?_, ?_, ?_, ?_⟩
  · rw [hfeu, hP2]
    rfl
  · rw [hfeu, hP2]
    exact hP1
  · rw [hfeu, hP2]
    exact hP3
  · rw [hfeu]
    exact feuLoop_mem_frame (L1 ++ a :: L2) ms MemorySet.new_bare.map_trampoline fa mem
      pte.ppn hframed hppn
  · intro i byte
    exact writeByte_ne _ _ _ _ _ hne
  · intro i byte
    exact writeByte_ne _ _ _ _ _ (fun h => hne h.symm)

/-- C6 witness: a one-page parent (VPN 2 -> PPN 5, page contents `[9]`)
cloned with the allocator at watermark 6; the child's frame is fresh,
distinct from 5, holds `[9]`, and a write through PPN 5 leaves it
untouched. -/
theorem from_existed_user_deep_witness :
    (MemorySet.from_existed_user
        ⟨⟨[(2, ⟨5, { v := true, r := true, w := true, u := true }⟩)], false⟩,
         [⟨2, 3, [(2, 5)], MapType.Framed, { r := true, w := true, u := true }⟩]⟩
        ⟨6, []⟩ (fun p => if p = 5 then [9] else [])).1.translate 2
      = some ⟨(((MemorySet.from_existed_user
            ⟨⟨[(2, ⟨5, { v := true, r := true, w := true, u := true }⟩)], false⟩,
             [⟨2, 3, [(2, 5)], MapType.Framed, { r := true, w := true, u := true }⟩]⟩
            ⟨6, []⟩ (fun p => if p = 5 then [9] else [])).1.translate 2).getD zeroPte).ppn,
          { v := true, r := true, w := true, u := true }⟩ ∧
    (6 : PPN) ≤ (((MemorySet.from_existed_user
        ⟨⟨[(2, ⟨5, { v := true, r := true, w := true, u := true }⟩)], false⟩,
         [⟨2, 3, [(2, 5)], MapType.Framed, { r := true, w := true, u := true }⟩]⟩
        ⟨6, []⟩ (fun p => if p = 5 then [9] else [])).1.translate 2).getD zeroPte).ppn ∧
    (((MemorySet.from_existed_user
        ⟨⟨[(2, ⟨5, { v := true, r := true, w := true, u := true }⟩)], false⟩,
         [⟨2, 3, [(2, 5)], MapType.Framed, { r := true, w := true, u := true }⟩]⟩
        ⟨6, []⟩ (fun p => if p = 5 then [9] else [])).1.translate 2).getD zeroPte).ppn ≠ 5 ∧
    (MemorySet.from_existed_user
        ⟨⟨[(2, ⟨5, { v := true, r := true, w := true, u := true }⟩)], false⟩,
         [⟨2, 3, [(2, 5)], MapType.Framed, { r := true, w := true, u := true }⟩]⟩
        ⟨6, []⟩ (fun p => if p = 5 then [9] else [])).2.2
      ((((MemorySet.from_existed_user
        ⟨⟨[(2, ⟨5, { v := true, r := true, w := true, u := true }⟩)], false⟩,
         [⟨2, 3, [(2, 5)], MapType.Framed, { r := true, w := true, u := true }⟩]⟩
        ⟨6, []⟩ (fun p => if p = 5 then [9] else [])).1.translate 2).getD zeroPte).ppn)
      = (fun p => if p = 5 then [9] else [] : Mem) 5 ∧
    (MemorySet.from_existed_user
        ⟨⟨[(2, ⟨5, { v := true, r := true, w := true, u := true }⟩)], false⟩,
         [⟨2, 3, [(2, 5)], MapType.Framed, { r := true, w := true, u := true }⟩]⟩
        ⟨6, []⟩ (fun p => if p = 5 then [9] else [])).2.2 5
      = (fun p => if p = 5 then [9] else [] : Mem) 5 ∧
    writeByte ((MemorySet.from_existed_user
        ⟨⟨[(2, ⟨5, { v := true, r := true, w := true, u := true }⟩)], false⟩,
         [⟨2, 3, [(2, 5)], MapType.Framed, { r := true, w := true, u := true }⟩]⟩
        ⟨6, []⟩ (fun p => if p = 5 then [9] else [])).2.2) 5 0 7
      ((((MemorySet.from_existed_user
        ⟨⟨[(2, ⟨5, { v := true, r := true, w := true, u := true }⟩)], false⟩,
         [⟨2, 3, [(2, 5)], MapType.Framed, { r := true, w := true, u := true }⟩]⟩
        ⟨6, []⟩ (fun p => if p = 5 then [9] else [])).1.translate 2).getD zeroPte).ppn)
      = (MemorySet.from_existed_user
        ⟨⟨[(2, ⟨5, { v := true, r := true, w := true, u := true }⟩)], false⟩,
         [⟨2, 3, [(2, 5)], MapType.Framed, { r := true, w := true, u := true }⟩]⟩
        ⟨6, []⟩ (fun p => if p = 5 then [9] else [])).2.2
        ((((MemorySet.from_existed_user
          ⟨⟨[(2, ⟨5, { v := true, r := true, w := true, u := true }⟩)], false⟩,
           [⟨2, 3, [(2, 5)], MapType.Framed, { r := true, w := true, u := true }⟩]⟩
          ⟨6, []⟩ (fun p => if p = 5 then [9] else [])).1.translate 2).getD zeroPte).ppn) := by
  have h := from_existed_user_deep
    ⟨⟨[(2, ⟨5, { v := true, r := true, w := true, u := true }⟩)], false⟩,
     [⟨2, 3, [(2, 5)], MapType.Framed, { r := true, w := true, u := true }⟩]⟩
    ⟨6, []⟩ (fun p => if p = 5 then [9] else [])
    ⟨2, 3, [(2, 5)], MapType.Framed, { r := true, w := true, u := true }⟩ 2
    ⟨5, { v := true, r := true, w := true, u := true }⟩
    (by decide) (by decide) (by decide) (by decide) (by decide) (by decide)
  exact ⟨h.1, h.2.1, h.2.2.1, h.2.2.2.1, h.2.2.2.2.1, h.2.2.2.2.2.1 0 7⟩

/-- C3: the two branch guards of `from_copy_on_write` (`<` for the deep-copy
skip, `>` for the CoW skip) are not an exact partition.  At a parent area
starting exactly at `heap_top`'s page, the deep-copy branch processes the
area (installing valid child leaves), and the CoW branch then processes the
same area again: it CoW-marks the parent's leaf (W cleared, COW set — this
mutation precedes the panic point in the per-VPN body, and nothing later at
this input touches the parent's table, so the final model value is the state
at the panic), and its `PageTable::map` call then hits the child leaf the
deep-copy branch already installed — the fails-fatal condition, so the
kernel panics (`fatal = true`) instead of completing the claimed
one-branch-per-area fork.  Shifting the same area one page up restores
single handling: the fork completes fatal-free with exactly one child
area. -/
theorem from_copy_on_write_boundary_fatal :
    (MemorySet.from_copy_on_write
      ⟨⟨[(16, ⟨5, { v := true, r := true, w := true, u := true }⟩)], false⟩,
       [⟨16, 17, [(16, 5)], MapType.Framed, { r := true, w := true, u := true }⟩]⟩
      65536 ⟨6, []⟩ memZero).1.translate 16
      = some ⟨5, { v := true, r := true, u := true, cow := true }⟩ ∧
    (MemorySet.from_copy_on_write
      ⟨⟨[(16, ⟨5, { v := true, r := true, w := true, u := true }⟩)], false⟩,
       [⟨16, 17, [(16, 5)], MapType.Framed, { r := true, w := true, u := true }⟩]⟩
      65536 ⟨6, []⟩ memZero).2.1.page_table.fatal = true ∧
    (MemorySet.from_copy_on_write
      ⟨⟨[(17, ⟨5, { v := true, r := true, w := true, u := true }⟩)], false⟩,
       [⟨17, 18, [(17, 5)], MapType.Framed, { r := true, w := true, u := true }⟩]⟩
      65536 ⟨6, []⟩ memZero).2.1.page_table.fatal = false ∧
    (MemorySet.from_copy_on_write
      ⟨⟨[(17, ⟨5, { v := true, r := true, w := true, u := true }⟩)], false⟩,
       [⟨17, 18, [(17, 5)], MapType.Framed, { r := true, w := true, u := true }⟩]⟩
      65536 ⟨6, []⟩ memZero).2.1.areas.length = 1 := by
  refine ⟨by decide, by decide, by decide, by decide⟩
